import Mathlib

/-!
# Verification of the onepanel deployment CLI

A shallow embedding of `manifest/manifest.go`, `cmd/apply.go`, `cmd/init.go` and
`cmd/delete.go` together with theorems about the manifest index, the parameter
validation, the two-phase apply controller, the flag validation, the builder
calls and the parameter pruning of `init`, and the files of `delete`.

Conventions of the embedding

* A Go `string` is a Lean `String`.  Go indexes strings by byte; the operations
  below index by character, which is the same thing on ASCII text.  All concrete
  inputs used in this development are ASCII.
* A Go `error` is an `Option String`: `none` is `nil`, `some msg` is an error
  with that message.
* A Go `map[string]V` is a function `String → Option V`.
* A run-time panic is the result `none` of an `Option`-valued function.
-/

namespace Onepanel

/-! ## Go string primitives -/

/-- Go `strings.Join(parts, sep)`. -/
def Join : List String → String → String
  | [], _ => ""
  | [a], _ => a
  | a :: b :: rest, sep => a ++ sep ++ Join (b :: rest) sep

/-- Position of the first occurrence of `sub` in `s`, if there is one. -/
def indexChars (sub : List Char) : List Char → Option Nat
  | [] => if sub = [] then some 0 else none
  | c :: rest =>
    if sub.isPrefixOf (c :: rest) then some 0
    else (indexChars sub rest).map (· + 1)

/-- Position of the last occurrence of `sub` in `s`, if there is one. -/
def lastIndexChars (sub : List Char) : List Char → Option Nat
  | [] => if sub = [] then some 0 else none
  | c :: rest =>
    match lastIndexChars sub rest with
    | some k => some (k + 1)
    | none => if sub.isPrefixOf (c :: rest) then some 0 else none

/-- Go `strings.Index(s, substr)`: the first position of `substr`, or `-1`. -/
def Index (s substr : String) : Int :=
  match indexChars substr.toList s.toList with
  | some k => (k : Int)
  | none => -1

/-- Go `strings.LastIndex(s, substr)`: the last position of `substr`, or `-1`. -/
def LastIndex (s substr : String) : Int :=
  match lastIndexChars substr.toList s.toList with
  | some k => (k : Int)
  | none => -1

/-- Go `strings.Contains(s, substr)`, which is `Index(s, substr) >= 0`. -/
def Contains (s substr : String) : Bool :=
  decide (0 ≤ Index s substr)

/-- Go slice expression `s[:hi]`.  It panics (`none`) when `hi` is negative or
exceeds the length of `s`. -/
def sliceTo (s : String) (hi : Int) : Option String :=
  if 0 ≤ hi ∧ hi ≤ (s.length : Int) then some (String.mk (s.toList.take hi.toNat))
  else none

/-- Splitting a character list at every occurrence of the character `sep`. -/
def splitChars (sep : Char) : List Char → List (List Char)
  | [] => [[]]
  | c :: rest =>
    if c = sep then [] :: splitChars sep rest
    else
      match splitChars sep rest with
      | [] => [[c]]
      | l :: ls => (c :: l) :: ls

/-- Go `strings.Split(s, sep)` for a one-character separator. -/
def Split (s : String) (sep : Char) : List String :=
  (splitChars sep s.toList).map String.mk

/-- A Go map `map[string]V`. -/
abbrev GoMap (V : Type) := String → Option V

/-- The empty map `make(map[string]V)`. -/
def GoMap.empty {V : Type} : GoMap V := fun _ => none

/-- The assignment `m[k] = v`. -/
def GoMap.set {V : Type} (m : GoMap V) (k : String) (v : V) : GoMap V :=
  fun k' => if k' = k then some v else m k'

/-! ## The manifest index (`manifest/manifest.go`) -/

/-- Modelled from the spec: the type `Component` of `manifest/component.go`, which
is not among the sources.  A component is identified by its relative path and
carries the overlays attached to it (here: their paths). -/
structure Component where
  path : String
  overlays : List String
deriving DecidableEq, Repr

/-- Modelled from the spec: the type `Overlay` of `manifest/overlay.go`, which is
not among the sources.  An overlay has a full relative path and an owning
component.  The source holds a pointer to the component; the model holds the key
under which that component is stored in the index. -/
structure Overlay where
  path : String
  component : String
deriving DecidableEq, Repr

/-- Modelled from the spec: `CreateComponent(relativePath)`, a component with no
overlays yet. -/
def CreateComponent (relativePath : String) : Component :=
  { path := relativePath, overlays := [] }

/-- Modelled from the spec: `CreateOverlay(relativePath, component)`. -/
def CreateOverlay (relativePath : String) (component : Component) : Overlay :=
  { path := relativePath, component := component.path }

/-- Modelled from the spec: `component.AddOverlay(overlay)`, "a component may carry
multiple overlays". -/
def Component.AddOverlay (c : Component) (overlay : Overlay) : Component :=
  { c with overlays := c.overlays ++ [overlay.path] }

/-- The struct `Manifest`. -/
structure Manifest where
  path : String
  components : GoMap Component
  overlays : GoMap Overlay

/-- The method `addComponent`: returns the stored component when the path is
already registered, otherwise stores and returns a new one. -/
def Manifest.addComponent (m : Manifest) (relativePath : String) : Manifest × Component :=
  match m.components relativePath with
  | some component => (m, component)
  | none =>
    let newComponent := CreateComponent relativePath
    ({ m with components := m.components.set relativePath newComponent }, newComponent)

/-- The method `addOverlay`.  The owning component's path is cut out of the
overlay path at the last occurrence of the text `overlays`; the slice
`relativePath[:startOfOverlaysIndex-1]` may panic. -/
def Manifest.addOverlay (m : Manifest) (relativePath : String) : Option (Manifest × Overlay) :=
  match m.overlays relativePath with
  | some overlay => some (m, overlay)
  | none =>
    let startOfOverlaysIndex := LastIndex relativePath "overlays"
    match sliceTo relativePath (startOfOverlaysIndex - 1) with
    | none => none
    | some componentPath =>
      let (m1, component) := m.addComponent componentPath
      let overlay := CreateOverlay relativePath component
      let component1 := component.AddOverlay overlay
      some ({ m1 with
                components := m1.components.set componentPath component1
                overlays := m1.overlays.set relativePath overlay }, overlay)

/-- The method `GetComponent`. -/
def Manifest.GetComponent (m : Manifest) (path : String) : Option Component :=
  m.components path

/-- The method `GetOverlay`. -/
def Manifest.GetOverlay (m : Manifest) (path : String) : Option Overlay :=
  m.overlays path

/-- The listing of a directory: its entries in the order `filepath.Walk` visits
them, each a file or a sub-directory with its own listing. -/
inductive DirEntries where
  | done : DirEntries
  | file (name : String) (rest : DirEntries) : DirEntries
  | dir (name : String) (sub : DirEntries) (rest : DirEntries) : DirEntries
deriving DecidableEq, Repr

/-- The visits `filepath.Walk` makes below a directory whose path relative to the
root has the segments `pre`: every entry with the segments of its relative path
and whether it is a directory, parents before their contents. -/
def walkBelow (pre : List String) : DirEntries → List (List String × Bool)
  | .done => []
  | .file name rest => (pre ++ [name], false) :: walkBelow pre rest
  | .dir name sub rest =>
    (pre ++ [name], true) :: (walkBelow (pre ++ [name]) sub ++ walkBelow pre rest)

/-- All visits of `filepath.Walk(manifestRoot, ...)`: the root itself, whose
relative path is `.`, then everything below it.  The segments are what
`strings.Split(filepath.Rel(manifestRoot, path), "/")` gives. -/
def walk (root : DirEntries) : List (List String × Bool) :=
  (["."], true) :: walkBelow [] root

/-- One iteration `i` of the loop `for i, part := range parts` in `LoadManifest`. -/
def loadStep (parts : List String) (m : Manifest) (i : Nat) : Option Manifest :=
  let part := parts.getD i ""
  let m1 :=
    if part = "base" then
      let pathUpToBase := Join (parts.take i) "/"
      (m.addComponent pathUpToBase).1
    else m
  if 0 < i ∧ parts.getD (i - 1) "" = "overlays" then
    let pathUpToOverlay := Join (parts.take (i + 1)) "/"
    (m1.addOverlay pathUpToOverlay).map Prod.fst
  else some m1

/-- The callback `LoadManifest` hands to `filepath.Walk`, for a walk without I/O
error: files are skipped, a directory runs the loop over its path segments. -/
def walkFn (m : Manifest) (visit : List String × Bool) : Option Manifest :=
  if !visit.2 then some m
  else (List.range visit.1.length).foldlM (loadStep visit.1) m

/-- The function `LoadManifest` on a tree that is walked without I/O error.
`none` is a run-time panic. -/
def LoadManifest (manifestRoot : String) (root : DirEntries) : Option Manifest :=
  (walk root).foldlM walkFn
    { path := manifestRoot, components := GoMap.empty, overlays := GoMap.empty }

/-- The relative paths (as segments) of the directories of a tree, the root
excluded. -/
def dirsOf (root : DirEntries) : List (List String) :=
  ((walkBelow [] root).filter (fun v => v.2)).map Prod.fst

/-- The name of the parent directory of the directory with segments `d`, when the
parent is not the root. -/
def parentName (d : List String) : Option String :=
  d.dropLast.getLast?

/-- The component path `addOverlay` cuts out of an overlay path
(`relativePath[:strings.LastIndex(relativePath, "overlays")-1]`); `none` when
the slice panics. -/
def overlayComponentPath (relativePath : String) : Option String :=
  sliceTo relativePath (LastIndex relativePath "overlays" - 1)

/-- The component path the loop iteration `i` registers for a `base` segment. -/
def baseAt (parts : List String) (i : Nat) : Option String :=
  if parts.getD i "" = "base" then some (Join (parts.take i) "/") else none

/-- The overlay path the loop iteration `i` registers for a segment below
`overlays`. -/
def overlayAt (parts : List String) (i : Nat) : Option String :=
  if 0 < i ∧ parts.getD (i - 1) "" = "overlays" then some (Join (parts.take (i + 1)) "/")
  else none

/-- The registered component paths of an index. -/
def Manifest.componentPaths (m : Manifest) : Set String :=
  {q | (m.components q).isSome}

/-- The registered overlay paths of an index. -/
def Manifest.overlayPaths (m : Manifest) : Set String :=
  {q | (m.overlays q).isSome}

/-- Consistency of an index: a component is stored under its own path, and an
overlay is stored under its own path with an owner that is the component path cut
out of the overlay path and that is registered. -/
def Manifest.Consistent (m : Manifest) : Prop :=
  (∀ q c, m.components q = some c → c.path = q) ∧
  (∀ o ov, m.overlays o = some ov →
    ov.path = o ∧ overlayComponentPath o = some ov.component ∧
      (m.components ov.component).isSome)

/-- The component paths the loop iteration `i` registers. -/
def stepComponents (parts : List String) (i : Nat) : Set String :=
  {q | baseAt parts i = some q ∨
    ∃ o, overlayAt parts i = some o ∧ overlayComponentPath o = some q}

/-- The overlay paths the loop iteration `i` registers. -/
def stepOverlays (parts : List String) (i : Nat) : Set String :=
  {o | overlayAt parts i = some o}

/-- The component paths a visit of the walk registers. -/
def visitComponents (v : List String × Bool) : Set String :=
  {q | v.2 = true ∧ ∃ i, i < v.1.length ∧ q ∈ stepComponents v.1 i}

/-- The overlay paths a visit of the walk registers. -/
def visitOverlays (v : List String × Bool) : Set String :=
  {o | v.2 = true ∧ ∃ i, i < v.1.length ∧ o ∈ stepOverlays v.1 i}

/-! ## Parameter validation (`manifest/manifest.go`) -/

/-- A `yaml.Node` as far as `Validate` reads it: the field `Value`. -/
structure YamlNode where
  Value : String
deriving DecidableEq, Repr

/-- Modelled from the spec: the type `util.DynamicYaml`, which is not among the
sources, observed through its method `GetValue` ("`Get(dotted) -> Node | nil` —
descend by dotted segments; returns the node or nil"). -/
structure DynamicYaml where
  GetValue : String → Option YamlNode

/-- The function `Validate`: `none` when the document is valid, otherwise the
error. -/
def Validate (manifest : DynamicYaml) : Option String :=
  match manifest.GetValue "application.defaultNamespace" with
  | none => some "application.defaultNamespace.missing"
  | some defaultNamespace =>
    if defaultNamespace.Value = "" then some "application.defaultNamespace.blank"
    else if defaultNamespace.Value = "onepanel" then
      some "application.defaultNamespace.reserved"
    else none

/-! ## The apply controller (`cmd/apply.go`) -/

/-- What one invocation of the kubectl command object does, as seen by
`applyKubernetesFile` and `getPodInfo`: the errors of the two `Flags().Set` calls
and the text the command writes to its output and error streams. -/
structure KubectlRun where
  setFilename : Option String
  setValidate : Option String
  out : String
  errOut : String
deriving DecidableEq, Repr

/-- The triple `(res, errMessage, err)` returned by `applyKubernetesFile` and
`getPodInfo`. -/
structure CmdResult where
  res : String
  errMessage : String
  err : Option String
deriving DecidableEq, Repr

/-- The function `applyKubernetesFile`: a failing `Flags().Set` returns early with
empty texts, otherwise the command runs and its two streams are returned with a
nil error. -/
def applyKubernetesFile (k : KubectlRun) : CmdResult :=
  match k.setFilename with
  | some e => { res := "", errMessage := "", err := some e }
  | none =>
    match k.setValidate with
    | some e => { res := "", errMessage := "", err := some e }
    | none => { res := k.out, errMessage := k.errOut, err := none }

/-- The state of the phase-2 retry loop: the variables `res`, `errRes` and `err`,
and the number of calls of `applyKubernetesFile` made so far. -/
structure Phase2State where
  res : String
  errRes : String
  err : Option String
  calls : Nat
deriving DecidableEq, Repr

/-- The loop `for i := 0; i < 5; i++` of phase 2 from iteration `i` on, with
`remaining = 5 - i` iterations left.  `world j` is what kubectl does on the
call number `j` (counted from 0). -/
def phase2From (world : Nat → KubectlRun) : Nat → Phase2State → Nat → Phase2State
  | _, st, 0 => st
  | i, st, remaining + 1 =>
    let r := applyKubernetesFile (world i)
    let st1 : Phase2State :=
      { res := r.res, errRes := r.errMessage, err := r.err, calls := st.calls + 1 }
    if !Contains st1.errRes "no matches for kind" then st1
    else phase2From world (i + 1) st1 remaining

/-- The phase-2 retry loop, entered with `res = ""`, `errRes = ""` and a nil
`err`. -/
def phase2Loop (world : Nat → KubectlRun) : Phase2State :=
  phase2From world 0 { res := "", errRes := "", err := none, calls := 0 } 5

/-- What the end of `applyCmd.Run` writes after the phase-2 loop: the lines it
logs and the message it prints. -/
structure Phase2Report where
  logged : List String
  printed : String
deriving DecidableEq, Repr

/-- The statements of `applyCmd.Run` that follow the phase-2 loop. -/
def reportPhase2 (st : Phase2State) : Phase2Report :=
  { logged := st.res :: (if st.errRes ≠ "" then [st.errRes] else [])
    printed :=
      match st.err with
      | some e => "\nDeployment failed: " ++ e
      | none => "\nDeployment is complete.\n" }

/-- How the readiness gate ends: phase 2 may start, or the command returns. -/
inductive GateResult where
  | proceed (lookups : Nat) : GateResult
  | abort (lookups : Nat) (printed : String) : GateResult
deriving DecidableEq, Repr

/-- Whether the second line of the pod listing contains `Running`:
`len(lines) > 1 && strings.Contains(lines[1], "Running")`. -/
def statusRunning (podInfoRes : String) : Bool :=
  let lines := Split podInfoRes '\n'
  decide (1 < lines.length) && Contains (lines.getD 1 "") "Running"

/-- The loop `for !applicationRunning` of `applyCmd.Run`, about to make the pod
lookup number `n` (counted from 0); `pods n` is what `getPodInfo` returns on that
lookup.  The loop has no bound in the source; `fuel` bounds the number of
iterations of the model, and `none` means the loop is still polling when the fuel
is used up. -/
def readinessGate (pods : Nat → CmdResult) : Nat → Nat → Option GateResult
  | 0, _ => none
  | fuel + 1, n =>
    let r := pods n
    match r.err with
    | some e => some (.abort (n + 1) ("\nFailed: " ++ e))
    | none =>
      if r.errMessage ≠ "" then some (.abort (n + 1) ("\n: " ++ r.errMessage))
      else if r.res = "" then some (.abort (n + 1) "\nNo response from first pod check.")
      else if statusRunning r.res then some (.proceed (n + 1))
      else readinessGate pods fuel (n + 1)

/-- What is observed of a run of `applyCmd.Run` after phase 1: the number of pod
lookups, the number of phase-2 calls of `applyKubernetesFile`, and the messages
printed. -/
structure ApplyRun where
  podLookups : Nat
  phase2Calls : Nat
  printed : List String
deriving DecidableEq, Repr

/-- The run of `applyCmd.Run` after a successful phase 1: the readiness gate,
then, when it lets the command proceed and `.kubernetes.yaml` is written
(`prepared`), the phase-2 loop and the closing report. -/
def runAfterPhase1 (pods : Nat → CmdResult) (prepared : Bool) (world : Nat → KubectlRun)
    (fuel : Nat) : Option ApplyRun :=
  match readinessGate pods fuel 0 with
  | none => none
  | some (.abort lookups msg) =>
    some { podLookups := lookups, phase2Calls := 0, printed := [msg] }
  | some (.proceed lookups) =>
    if !prepared then some { podLookups := lookups, phase2Calls := 0, printed := [] }
    else
      let st := phase2Loop world
      some { podLookups := lookups, phase2Calls := st.calls,
             printed := [(reportPhase2 st).printed] }

/-! ## Flag validation and provider wiring of `init` (`cmd/init.go`) -/

/-- The package-level flag variables of `cmd/init.go`.  A slice flag is `none`
when it is the nil slice. -/
structure InitFlags where
  ConfigurationFilePath : String
  ParametersFilePath : String
  Provider : String
  DNS : String
  ArtifactRepositoryProvider : String
  Dev : Bool
  EnableEFKLogging : Bool
  EnableHTTPS : Bool
  EnableCertManager : Bool
  EnableMetalLb : Bool
  GPUDevicePlugins : Option (List String)
  Services : Option (List String)
deriving DecidableEq, Repr

/-- The struct `ProviderProperties`. -/
structure ProviderProperties where
  IsCloud : Bool
deriving DecidableEq, Repr

/-- The table `providerProperties`. -/
def providerProperties : GoMap ProviderProperties :=
  ((((GoMap.empty.set "minikube" { IsCloud := false }).set "microk8s" { IsCloud := false }).set
    "gke" { IsCloud := true }).set "eks" { IsCloud := true }).set "aks" { IsCloud := true }

/-- The constant `artifactRepositoryProviderS3`. -/
def artifactRepositoryProviderS3 : String := "s3"

/-- The constant `artifactRepositoryProviderGcs`. -/
def artifactRepositoryProviderGcs : String := "gcs"

/-- The function `validateProvider`. -/
def validateProvider (prov : String) : Option String :=
  match providerProperties prov with
  | none => some ("Unsupported provider " ++ prov)
  | some _ => none

/-- The function `validateArtifactRepositoryProvider`. -/
def validateArtifactRepositoryProvider (arRepoProv : String) : Option String :=
  if arRepoProv = "" then some "artifact repository provider cannot be empty"
  else if arRepoProv = artifactRepositoryProviderS3 ∨ arRepoProv = artifactRepositoryProviderGcs
  then none
  else some "unrecognized artifact repository provider value"

/-- The function `validateDNS`. -/
def validateDNS (dns : String) : Option String :=
  if dns ≠ "route53" ∧ dns ≠ "" ∧ dns ≠ "clouddns" ∧ dns ≠ "azuredns" ∧ dns ≠ "cloudflare"
  then some ("unsupported dns " ++ dns)
  else none

/-- The first element of a slice that a `for ... range` loop returns an error
for. -/
def firstInvalid (valid : String → Bool) : List String → Option String
  | [] => none
  | p :: rest => if !valid p then some p else firstInvalid valid rest

/-- The function `validateGPUPlugins`.  The nil test is on the argument, the loop
ranges over the flag variable `GPUDevicePlugins`. -/
def validateGPUPlugins (flags : InitFlags) (gpuPlugins : Option (List String)) : Option String :=
  match gpuPlugins with
  | none => none
  | some _ =>
    (firstInvalid (fun p => !(decide (p ≠ "amd") && decide (p ≠ "nvidia")))
      (flags.GPUDevicePlugins.getD [])).map
      (fun p => p ++ " is not a valid --gpu-device-plugins value")

/-- The function `validateServices`. -/
def validateServices (services : Option (List String)) : Option String :=
  match services with
  | none => none
  | some l =>
    (firstInvalid (fun c => !(decide (c ≠ "modeldb"))) l).map
      (fun c => c ++ " is not a valid --component value")

/-- The function `validateInput`. -/
def validateInput (flags : InitFlags) : Option String :=
  if flags.EnableCertManager ∧ ¬ flags.EnableHTTPS then
    some "enable-https flag is required when enable-cert-manager is set"
  else if flags.EnableCertManager ∧ flags.DNS = "" then
    some "dns-provider flag is required when enable-cert-manager is set"
  else if ¬ flags.EnableCertManager ∧ flags.DNS ≠ "" then
    some "enable-cert-manager flag is required when dns-provider is set"
  else
    match validateProvider flags.Provider with
    | some err => some err
    | none =>
      match validateDNS flags.DNS with
      | some err => some err
      | none =>
        match validateGPUPlugins flags flags.GPUDevicePlugins with
        | some err => some err
        | none => validateServices flags.Services

/-- Modelled from the spec: the type `manifest.Builder` of `manifest/builder.go`,
which is not among the sources: the index it reads, the contender tokens and the
components recorded in insertion order. -/
structure Builder where
  manifest : Manifest
  contenders : List String
  components : List String

/-- Modelled from the spec: `AddOverlayContender(tokens...)`, "`AddContender(tokens…)`
appends. No validation". -/
def Builder.AddOverlayContender (b : Builder) (tokens : List String) : Builder :=
  { b with contenders := b.contenders ++ tokens }

/-- Modelled from the spec: `AddComponent(relPath...)`, "for each relPath, look up
in the index; if absent, fail `UnknownComponent`. Record the component in
insertion order".  The builder is returned together with the error, as the
method changes it in place. -/
def Builder.AddComponent (b : Builder) : List String → Builder × Option String
  | [] => (b, none)
  | relPath :: rest =>
    match b.manifest.GetComponent relPath with
    | none => (b, some ("UnknownComponent " ++ relPath))
    | some _ => Builder.AddComponent { b with components := b.components ++ [relPath] } rest

/-- The function `addCloudProviderToManifestBuilder`; the builder is returned
together with the error. -/
def addCloudProviderToManifestBuilder (flags : InitFlags) (provider : String)
    (builder : Builder) : Builder × Option String :=
  let b0 := builder.AddOverlayContender [provider]
  let r1 : Builder × Option String :=
    if (provider ≠ "minikube" ∧ provider ≠ "microk8s") ∧ flags.EnableCertManager then
      b0.AddComponent ["cert-manager"]
    else (b0, none)
  match r1 with
  | (b1, some err) => (b1, some err)
  | (b1, none) =>
    let r2 : Builder × Option String :=
      if (provider = "minikube" ∨ provider = "microk8s") ∧ flags.EnableMetalLb then
        b1.AddComponent ["metallb"]
      else (b1, none)
    match r2 with
    | (b2, some err) => (b2, some err)
    | (b2, none) =>
      match b2.AddComponent ["storage"] with
      | (b3, some err) => (b3, some err)
      | (b3, none) => (b3, none)

/-! ## The parameter document and artifact repository pruning (`cmd/init.go`) -/

/-- Modelled from the spec: the content of a parameter document (`util.DynamicYaml`,
which is not among the sources), "an ordered mapping tree keyed by dotted paths.
Leaf values are scalars or lists of scalars".  The entries of one mapping in
document order, each a scalar, a list of scalars or a nested mapping. -/
inductive YamlEntries where
  | done : YamlEntries
  | scalar (key value : String) (rest : YamlEntries) : YamlEntries
  | sequence (key : String) (items : List String) (rest : YamlEntries) : YamlEntries
  | mapping (key : String) (content : YamlEntries) (rest : YamlEntries) : YamlEntries
deriving DecidableEq, Repr

/-- Modelled from the spec: a node of a parameter document, the `*yaml.Node` that
`Get` and `GetValue` return. -/
inductive YamlValue where
  | scalar (value : String) : YamlValue
  | sequence (items : List String) : YamlValue
  | mapping (content : YamlEntries) : YamlValue
deriving DecidableEq, Repr

/-- The child nodes of a mapping: key node and value node of every entry in
turn. -/
def YamlEntries.nodes : YamlEntries → List YamlValue
  | .done => []
  | .scalar key value rest => .scalar key :: .scalar value :: rest.nodes
  | .sequence key items rest => .scalar key :: .sequence items :: rest.nodes
  | .mapping key content rest => .scalar key :: .mapping content :: rest.nodes

/-- The field `Content` of a `yaml.Node`: empty for a scalar, the items of a
sequence, the key and value nodes of a mapping. -/
def YamlValue.Content : YamlValue → List YamlValue
  | .scalar _ => []
  | .sequence items => items.map .scalar
  | .mapping content => content.nodes

/-- The field `Value` of a `yaml.Node`: the text of a scalar, empty otherwise. -/
def YamlValue.Value : YamlValue → String
  | .scalar value => value
  | .sequence _ => ""
  | .mapping _ => ""

/-- The value of the first entry of a mapping stored under `key`. -/
def YamlEntries.find (key : String) : YamlEntries → Option YamlValue
  | .done => none
  | .scalar k value rest => if k = key then some (.scalar value) else rest.find key
  | .sequence k items rest => if k = key then some (.sequence items) else rest.find key
  | .mapping k content rest => if k = key then some (.mapping content) else rest.find key

/-- The mapping without its entries stored under `key`. -/
def YamlEntries.remove (key : String) : YamlEntries → YamlEntries
  | .done => .done
  | .scalar k value rest =>
    if k = key then rest.remove key else .scalar k value (rest.remove key)
  | .sequence k items rest =>
    if k = key then rest.remove key else .sequence k items (rest.remove key)
  | .mapping k content rest =>
    if k = key then rest.remove key else .mapping k content (rest.remove key)

/-- The mapping with `f` applied to the content of its first entry stored under
`key`; `none` when there is no such entry, when it is not a mapping, or when `f`
fails. -/
def YamlEntries.inFirst (key : String) (f : YamlEntries → Option YamlEntries) :
    YamlEntries → Option YamlEntries
  | .done => none
  | .scalar k value rest =>
    if k = key then none else (YamlEntries.inFirst key f rest).map (.scalar k value)
  | .sequence k items rest =>
    if k = key then none else (YamlEntries.inFirst key f rest).map (.sequence k items)
  | .mapping k content rest =>
    if k = key then (f content).map (fun c => .mapping k c rest)
    else (YamlEntries.inFirst key f rest).map (.mapping k content)

/-- Descent by the segments of a dotted path to the node stored there. -/
def YamlEntries.getPath : List String → YamlEntries → Option YamlValue
  | [], _ => none
  | [k], d => d.find k
  | k :: k2 :: ks, d =>
    match d.find k with
    | some (.mapping content) => YamlEntries.getPath (k2 :: ks) content
    | _ => none

/-- Removal of the node stored under the segments of a dotted path; `none` when
a parent on the path is missing. -/
def YamlEntries.deletePath : List String → YamlEntries → Option YamlEntries
  | [], d => some d
  | [k], d => some (d.remove k)
  | k :: k2 :: ks, d => d.inFirst k (YamlEntries.deletePath (k2 :: ks))

/-- Modelled from the spec: the method `Get` of `util.DynamicYaml`, "`Get(dotted) ->
Node | nil` — descend by dotted segments; returns the node or nil".  It returns
the key node and the value node. -/
def YamlEntries.Get (d : YamlEntries) (key : String) : Option (YamlValue × YamlValue) :=
  (d.getPath (Split key '.')).map
    (fun v => (.scalar ((Split key '.').getLastD ""), v))

/-- Modelled from the spec: the method `GetValue` of `util.DynamicYaml`, the value
node of `Get` or nil. -/
def YamlEntries.GetValue (d : YamlEntries) (key : String) : Option YamlValue :=
  (d.Get key).map Prod.snd

/-- Modelled from the spec: the method `Delete` of `util.DynamicYaml`,
"`Delete(dotted) -> Error?` — remove the node; fail if parent missing".  The
document is returned together with the error, as the method changes it in
place. -/
def YamlEntries.Delete (d : YamlEntries) (key : String) : YamlEntries × Option String :=
  match d.deletePath (Split key '.') with
  | some d1 => (d1, none)
  | none => (d, some ("parent of " ++ key ++ " is missing"))

/-- The parameter document as `Validate` reads it. -/
def YamlEntries.toDynamicYaml (d : YamlEntries) : DynamicYaml :=
  { GetValue := fun key => (d.GetValue key).map (fun v => { Value := v.Value }) }

/-- The loop of `removeUneededArtifactRepositoryProviders` over the providers
still to visit.  The result is the document and whether the function returned
from inside the loop (after a failed `Delete`). -/
def pruneProviders (flags : InitFlags) :
    List String → YamlEntries → YamlEntries × Bool
  | [], mergedParams => (mergedParams, false)
  | artRepoProv :: rest, mergedParams =>
    if flags.ArtifactRepositoryProvider = artRepoProv then
      pruneProviders flags rest mergedParams
    else
      let nodeKeyStr := "artifactRepository." ++ artRepoProv
      match mergedParams.Get nodeKeyStr with
      | none => pruneProviders flags rest mergedParams
      | some _ =>
        match mergedParams.Delete nodeKeyStr with
        | (d1, some _) => (d1, true)
        | (d1, none) => pruneProviders flags rest d1

/-- The function `removeUneededArtifactRepositoryProviders`: the document it
leaves behind, or `none` when it panics.  After the loop it reads
`parentValue.Content` of `GetValue("artifactRepository")` without a nil test; a
nil `parentValue` is a nil pointer dereference. -/
def removeUneededArtifactRepositoryProviders (flags : InitFlags)
    (mergedParams : YamlEntries) : Option YamlEntries :=
  let artifactRepoProviders := [artifactRepositoryProviderS3, artifactRepositoryProviderGcs]
  match pruneProviders flags artifactRepoProviders mergedParams with
  | (d1, true) => some d1
  | (d1, false) =>
    match d1.GetValue "artifactRepository" with
    | none => none
    | some parentValue =>
      if parentValue.Content.length = 0 then some (d1.Delete "artifactRepository").1
      else some d1

/-! ## The builder calls and the end of `initCmd.Run` (`cmd/init.go`) -/

/-- Modelled from the spec: `CreateBuilder(manifest)`, a builder on the index with
nothing recorded yet. -/
def CreateBuilder (loadedManifest : Manifest) : Builder :=
  { manifest := loadedManifest, contenders := [], components := [] }

/-- Modelled from the spec: `AddCommonComponents()`, "equivalent to adding a fixed
preset of baseline components"; the preset is embedded in the builder, which is
not among the sources, and is a parameter here. -/
def Builder.AddCommonComponents (b : Builder) (preset : List String) :
    Builder × Option String :=
  b.AddComponent preset

/-- Modelled from the spec: `AddOverlay(overlayPath)`, "look up the overlay; if
absent, fail `UnknownOverlay`. Force-include it regardless of contender
matching, attaching it to its owning component (auto-adding the component if
needed)".  The overlays forced so far are kept next to the builder. -/
def Builder.AddOverlay (b : Builder) (forced : List String) (overlayPath : String) :
    (Builder × List String) × Option String :=
  match b.manifest.GetOverlay overlayPath with
  | none => ((b, forced), some ("UnknownOverlay " ++ overlayPath))
  | some overlay =>
    let b1 :=
      if overlay.component ∈ b.components then b
      else { b with components := b.components ++ [overlay.component] }
    ((b1, forced ++ [overlayPath]), none)

/-- The function `addDNSProviderToManifestBuilder`; the builder and the forced
overlays are returned together with the error. -/
def addDNSProviderToManifestBuilder (dns : String) (builder : Builder)
    (forced : List String) : (Builder × List String) × Option String :=
  if dns = "" then ((builder, forced), none)
  else
    let b1 := builder.AddOverlayContender [dns]
    let overlay := Join ["cert-manager", "overlays", dns] "/"
    b1.AddOverlay forced overlay

/-- What `initCmd.Run` does that can be observed from outside, from the creation
of the builder on: a line it logs, the call of `bld.Build()`, opening the
parameters file (which truncates it), writing the parameters, creating the
configuration file, writing the configuration. -/
inductive InitEvent where
  | log (message : String) : InitEvent
  | build : InitEvent
  | openParams : InitEvent
  | writeParams : InitEvent
  | createConfig : InitEvent
  | writeConfig : InitEvent
deriving DecidableEq, Repr

/-- The results of the operations `initCmd.Run` calls after the builder calls and
whose code is not among the sources: the preset of `AddCommonComponents`, the
errors of `bld.Build()`, of the template builder, of loading the parameters
file, the document after `Merge` and the two `Put` calls, whether
`mergedParams.String()` fails, and the errors of the file operations. -/
structure InitWorld where
  commonComponents : List String
  buildErr : Option String
  templateBuildErr : Option String
  loadParamsErr : Option String
  mergedParams : YamlEntries
  paramsStringFails : Bool
  openParamsErr : Option String
  writeParamsErr : Option String
  createConfigErr : Option String
  marshalErr : Option String
  writeConfigErr : Option String

/-- The builder calls of `initCmd.Run`, from `CreateBuilder` to the components
named by `--services`: the lines logged, and the builder with its forced
overlays when the command goes on to `bld.Build()`, `none` when it returned. -/
def initBuilderCalls (flags : InitFlags) (commonComponents : List String)
    (loadedManifest : Manifest) : List InitEvent × Option (Builder × List String) :=
  let bld := CreateBuilder loadedManifest
  match bld.AddCommonComponents commonComponents with
  | (_, some err) => ([.log ("[error] AddCommonComponents " ++ err)], none)
  | (bld1, none) =>
    match addCloudProviderToManifestBuilder flags flags.Provider bld1 with
    | (_, some err) => ([.log ("[error] Adding Cloud Provider: " ++ err)], none)
    | (bld2, none) =>
      match addDNSProviderToManifestBuilder flags.DNS bld2 [] with
      | (_, some err) => ([.log ("[error] Adding Dns Provider: " ++ err)], none)
      | ((bld3, forced), none) =>
        match (if flags.EnableEFKLogging then bld3.AddComponent ["logging"]
               else (bld3, none)) with
        | (_, some err) => ([.log ("[error] Adding logging component: " ++ err)], none)
        | (bld4, none) =>
          match (match flags.GPUDevicePlugins with
                 | none => (bld4, none)
                 | some plugins =>
                   match bld4.AddComponent ["gpu-plugins"] with
                   | (b, some err) => (b, some err)
                   | (b, none) => (b.AddOverlayContender plugins, none)) with
          | (_, some err) =>
            ([.log ("[error] Adding GPU plugins component: " ++ err)], none)
          | (bld5, none) =>
            let bld6 := bld5.AddOverlayContender ["cloud"]
            let bld7 := if flags.EnableHTTPS then bld6.AddOverlayContender ["https"] else bld6
            match flags.Services with
            | none => ([], some (bld7, forced))
            | some services =>
              match bld7.AddComponent services with
              | (bld8, some err) =>
                ([.log ("[error] Adding Components: " ++ err)], some (bld8, forced))
              | (bld8, none) => ([], some (bld8, forced))

/-- The statements of `initCmd.Run` from `bld.Build()` to the end. `none` is a
panic of `removeUneededArtifactRepositoryProviders`. -/
def initBuildAndWrite (flags : InitFlags) (world : InitWorld) : Option (List InitEvent) :=
  match world.buildErr with
  | some err => some [.build, .log ("[error] building components and overlays: " ++ err)]
  | none =>
    match world.templateBuildErr with
    | some err => some [.build, .log ("err generating config. Error " ++ err)]
    | none =>
      match world.loadParamsErr with
      | some err => some [.build, .log ("[error] loading params file: " ++ err)]
      | none =>
        match removeUneededArtifactRepositoryProviders flags world.mergedParams with
        | none => none
        | some _ =>
          if world.paramsStringFails then
            some [.build, .log "[error] unable to write params to a string"]
          else
            match world.openParamsErr with
            | some err => some [.build, .log ("Error opening parameters file: " ++ err)]
            | none =>
              match world.writeParamsErr with
              | some err =>
                some [.build, .openParams, .log ("Error writing merged parameters: " ++ err)]
              | none =>
                match world.createConfigErr with
                | some err =>
                  some [.build, .openParams, .writeParams,
                    .log ("unable to create " ++ flags.ConfigurationFilePath ++ " file: " ++ err)]
                | none =>
                  match world.marshalErr with
                  | some err =>
                    some [.build, .openParams, .writeParams, .createConfig,
                      .log ("unable to marshal yaml data: " ++ err)]
                  | none =>
                    match world.writeConfigErr with
                    | some err =>
                      some [.build, .openParams, .writeParams, .createConfig,
                        .log ("unable to write yaml data: " ++ err)]
                    | none =>
                      some [.build, .openParams, .writeParams, .createConfig, .writeConfig]

/-- The function `initCmd.Run` from the creation of the builder on (the index is
loaded): the builder calls, then, unless one of them made the command return,
`bld.Build()` and the writing of the two files. -/
def initCmdRun (flags : InitFlags) (world : InitWorld) (loadedManifest : Manifest) :
    Option (List InitEvent) :=
  match initBuilderCalls flags world.commonComponents loadedManifest with
  | (logged, none) => some logged
  | (logged, some _) => (initBuildAndWrite flags world).map (fun events => logged ++ events)

/-! ## The files of `apply` and `delete` (`cmd/apply.go`, `cmd/delete.go`) -/

/-- The path `applicationKubernetesYamlFilePath` that `applyCmd.Run` writes the
phase-1 manifest to. -/
def applicationKubernetesYamlFilePath : String := ".application.kubernetes.yaml"

/-- The path `finalKubernetesYamlFilePath` that `applyCmd.Run` writes the phase-2
manifest to. -/
def finalKubernetesYamlFilePath : String := ".kubernetes.yaml"

/-- The files `applyCmd.Run` writes, in the order it writes them. -/
def applyWrittenFiles : List String :=
  [applicationKubernetesYamlFilePath, finalKubernetesYamlFilePath]

/-- Go `filepath.Join(elem...)` for elements the cleaning of the path leaves as
they are: the non-empty elements joined by the separator. -/
def filepathJoin (elem : List String) : String :=
  Join (elem.filter (fun e => e ≠ "")) "/"

/-- The slice `filesToDelete` of `deleteCmd.Run`. -/
def filesToDelete : List String :=
  [filepathJoin [".onepanel", "kubernetes.yaml"],
   filepathJoin [".onepanel", "application.kubernetes.yaml"]]

/-- What surrounds one run of `deleteCmd.Run`: the flag `--yes`, the answer read
by `fmt.Scanln` (or its error), the result of `files.Exists` for a path, and the
error of `util.KubectlDelete` for a path. -/
structure DeleteWorld where
  skipConfirmDelete : Bool
  userInput : Except String String
  fileExists : String → Except String Bool
  kubectlDelete : String → Option String

/-- What is observed of a run of `deleteCmd.Run`: the paths handed to
`files.Exists`, the paths handed to `util.KubectlDelete`, and the text
printed. -/
structure DeleteRun where
  checked : List String
  deleted : List String
  printed : List String
deriving DecidableEq, Repr

/-- The first loop of `deleteCmd.Run` over the paths still to check: the paths
checked and, when the loop returns from the command, the message it prints. -/
def checkFiles (world : DeleteWorld) : List String → List String × Option String
  | [] => ([], none)
  | filePath :: rest =>
    match world.fileExists filePath with
    | .error err => ([filePath], some ("Error checking if onepanel files exist: " ++ err ++ "\n"))
    | .ok false =>
      ([filePath], some ("'" ++ filePath ++
        "' file does not exist. Are you in the directory where you run 'opctl init'?\n"))
    | .ok true =>
      let r := checkFiles world rest
      (filePath :: r.1, r.2)

/-- The second loop of `deleteCmd.Run` over the paths still to delete: the paths
handed to `util.KubectlDelete` and, when a call fails, the message printed. -/
def deleteFiles (world : DeleteWorld) : List String → List String × Option String
  | [] => ([], none)
  | filePath :: rest =>
    match world.kubectlDelete filePath with
    | some err => ([filePath], some ("Unable to delete: " ++ err ++ "\n"))
    | none =>
      let r := deleteFiles world rest
      (filePath :: r.1, r.2)

/-- The confirmation prompt of `deleteCmd.Run`. -/
def deletePrompt : String :=
  "Are you sure you want to delete onepanel? ('y' or 'yes' to confirm. Anything else to cancel): "

/-- The statements of `deleteCmd.Run` after the confirmation. -/
def deleteConfirmed (world : DeleteWorld) (printed : List String) : DeleteRun :=
  match checkFiles world filesToDelete with
  | (checked, some message) =>
    { checked := checked, deleted := [], printed := printed ++ [message] }
  | (checked, none) =>
    let r := deleteFiles world filesToDelete
    { checked := checked, deleted := r.1,
      printed := printed ++ ["Deleting onepanel from your cluster...\n"] ++ r.2.toList }

/-- The function `deleteCmd.Run`. -/
def deleteCmdRun (world : DeleteWorld) : DeleteRun :=
  if world.skipConfirmDelete = false then
    match world.userInput with
    | .error _ =>
      { checked := [], deleted := [], printed := [deletePrompt, "Unable to get response\n"] }
    | .ok userInput =>
      if userInput ≠ "y" ∧ userInput ≠ "yes" then
        { checked := [], deleted := [], printed := [deletePrompt] }
      else deleteConfirmed world [deletePrompt]
  else deleteConfirmed world []

/-! ## Concrete inputs used by the instances below -/

/-- A tree with an overlay whose component has no `base` directory:
`foo/overlays/x`. -/
def overlayWithoutBase : DirEntries :=
  .dir "foo" (.dir "overlays" (.dir "x" .done .done) .done) .done

/-- A tree with components and overlays: `a/base`, `a/overlays/x`, `b/overlays/y`
and a file `a/base/kustomization.yaml`. -/
def smallManifests : DirEntries :=
  .dir "a"
    (.dir "base" (.file "kustomization.yaml" .done)
      (.dir "overlays" (.dir "x" .done .done) .done))
    (.dir "b" (.dir "overlays" (.dir "y" .done .done) .done) .done)

/-- A tree with a directory `overlays` directly under the root: `overlays/x`. -/
def rootOverlays : DirEntries :=
  .dir "overlays" (.dir "x" .done .done) .done

/-- A tree with an overlay whose leaf name contains the text `overlays`:
`a/base` and `a/overlays/myoverlays`. -/
def overlaysInLeafName : DirEntries :=
  .dir "a" (.dir "base" .done (.dir "overlays" (.dir "myoverlays" .done .done) .done)) .done

/-- A kubectl run that reports a missing resource kind on its error stream. -/
def transientRun : KubectlRun :=
  { setFilename := none, setValidate := none, out := "",
    errOut := "error: unable to recognize \".kubernetes.yaml\": no matches for kind \"Workflow\"" }

/-- A kubectl run that succeeds. -/
def successRun : KubectlRun :=
  { setFilename := none, setValidate := none, out := "namespace/onepanel created", errOut := "" }

/-- A kubectl run that fails with an error other than a missing resource kind. -/
def forbiddenRun : KubectlRun :=
  { setFilename := none, setValidate := none, out := "",
    errOut := "Error from server (Forbidden): namespaces is forbidden" }

/-- Three responses with the retry text, then success. -/
def threeTransientThenSuccess (j : Nat) : KubectlRun :=
  if j < 3 then transientRun else successRun

/-- A pod listing whose status line does not yet say `Running`. -/
def creatingPod : CmdResult :=
  { res := "NAME READY STATUS RESTARTS AGE\napplication-controller-manager-0 0/1 ContainerCreating 0 5s\n",
    errMessage := "", err := none }

/-- A pod listing whose status line says `Running`. -/
def runningPod : CmdResult :=
  { res := "NAME READY STATUS RESTARTS AGE\napplication-controller-manager-0 1/1 Running 0 9s\n",
    errMessage := "", err := none }

/-- A pod lookup that reports `Running` on the third poll. -/
def runningOnThirdPoll (j : Nat) : CmdResult :=
  if j < 2 then creatingPod else runningPod

/-- Flags with a supported provider and an artifact repository provider outside
the vocabulary: `init --provider gke --artifact-repository-provider azure`. -/
def unknownArtifactRepoFlags : InitFlags :=
  { ConfigurationFilePath := "config.yaml", ParametersFilePath := "params.yaml",
    Provider := "gke", DNS := "", ArtifactRepositoryProvider := "azure",
    Dev := false, EnableEFKLogging := false, EnableHTTPS := false,
    EnableCertManager := false, EnableMetalLb := false,
    GPUDevicePlugins := none, Services := none }

/-- An index that knows the components `cert-manager`, `metallb` and `storage`. -/
def wiringManifest : Manifest :=
  { path := ".onepanel/manifests",
    components :=
      ((GoMap.empty.set "cert-manager" (CreateComponent "cert-manager")).set "metallb"
        (CreateComponent "metallb")).set "storage" (CreateComponent "storage"),
    overlays := GoMap.empty }

/-- A builder on `wiringManifest` with nothing recorded yet. -/
def wiringBuilder : Builder :=
  { manifest := wiringManifest, contenders := [], components := [] }

/-- Flags of `init --provider gke --dns-provider clouddns --enable-https
--enable-cert-manager`. -/
def gkeCertManagerFlags : InitFlags :=
  { ConfigurationFilePath := "config.yaml", ParametersFilePath := "params.yaml",
    Provider := "gke", DNS := "clouddns", ArtifactRepositoryProvider := "gcs",
    Dev := false, EnableEFKLogging := false, EnableHTTPS := true,
    EnableCertManager := true, EnableMetalLb := false,
    GPUDevicePlugins := none, Services := none }

/-- A merged parameter document without an `artifactRepository` key. -/
def paramsWithoutArtifactRepository : YamlEntries :=
  .mapping "application"
    (.scalar "defaultNamespace" "example"
      (.scalar "insecure" "true" (.scalar "provider" "minikube" .done)))
    .done

/-- Flags of `init --provider minikube --artifact-repository-provider s3`. -/
def minikubeS3Flags : InitFlags :=
  { ConfigurationFilePath := "config.yaml", ParametersFilePath := "params.yaml",
    Provider := "minikube", DNS := "", ArtifactRepositoryProvider := "s3",
    Dev := false, EnableEFKLogging := false, EnableHTTPS := false,
    EnableCertManager := false, EnableMetalLb := false,
    GPUDevicePlugins := none, Services := none }

/-- An index that knows the components `common/application` and `storage` and no
component `modeldb`. -/
def manifestWithoutModeldb : Manifest :=
  { path := ".onepanel/manifests",
    components :=
      (GoMap.empty.set "common/application" (CreateComponent "common/application")).set
        "storage" (CreateComponent "storage"),
    overlays := GoMap.empty }

/-- Flags of `init --provider minikube --artifact-repository-provider s3
--services modeldb`. -/
def modeldbFlags : InitFlags :=
  { ConfigurationFilePath := "config.yaml", ParametersFilePath := "params.yaml",
    Provider := "minikube", DNS := "", ArtifactRepositoryProvider := "s3",
    Dev := false, EnableEFKLogging := false, EnableHTTPS := false,
    EnableCertManager := false, EnableMetalLb := false,
    GPUDevicePlugins := none, Services := some ["modeldb"] }

/-- A merged parameter document with the subtrees of both artifact repository
providers. -/
def paramsWithBothProviders : YamlEntries :=
  .mapping "application"
    (.scalar "defaultNamespace" "example"
      (.scalar "insecure" "true" (.scalar "provider" "minikube" .done)))
    (.mapping "artifactRepository"
      (.mapping "s3" (.scalar "bucket" "artifacts" .done)
        (.mapping "gcs" (.scalar "bucket" "artifacts" .done) .done))
      .done)

/-- A run of `init` in which every operation after the builder calls succeeds. -/
def smoothInitWorld : InitWorld :=
  { commonComponents := ["common/application"],
    buildErr := none, templateBuildErr := none, loadParamsErr := none,
    mergedParams := paramsWithBothProviders, paramsStringFails := false,
    openParamsErr := none, writeParamsErr := none, createConfigErr := none,
    marshalErr := none, writeConfigErr := none }

/-- A run of `delete -y` in the directory where `apply` has written its two
files: exactly these two files exist, and every delete operation would
succeed. -/
def afterApplyWorld : DeleteWorld :=
  { skipConfirmDelete := true,
    userInput := .ok "",
    fileExists := fun filePath => .ok (decide (filePath ∈ applyWrittenFiles)),
    kubectlDelete := fun _ => none }

/-- A tree with a component and a directory `overlays` directly under the root:
`common/base` and `overlays/dev`. -/
def rootOverlaysBesideComponents : DirEntries :=
  .dir "common" (.dir "base" .done .done)
    (.dir "overlays" (.dir "dev" .done .done) .done)

/-! ## Theorems: the manifest index -/

/-- `addComponent` keeps the index consistent, returns the component stored under
the path, and adds exactly that path to the component paths. -/
theorem addComponent_spec (m : Manifest) (p : String) (hm : m.Consistent) :
    (m.addComponent p).1.Consistent ∧ (m.addComponent p).2.path = p ∧
    (m.addComponent p).1.components p = some (m.addComponent p).2 ∧
    (m.addComponent p).1.componentPaths = m.componentPaths ∪ {p} ∧
    (m.addComponent p).1.overlays = m.overlays := by
  unfold Manifest.addComponent
  cases h : m.components p with
  | some c =>
    refine ⟨hm, hm.1 p c h, h, ?_, rfl⟩
    ext q
    simp only [Manifest.componentPaths, Set.mem_setOf_eq, Set.mem_union, Set.mem_singleton_iff]
    constructor
    · exact Or.inl
    · rintro (hq | rfl)
      · exact hq
      · simp [h]
  | none =>
    refine ⟨⟨?_, ?_⟩, rfl, by simp [GoMap.set], ?_, rfl⟩
    · intro q c hq
      simp only [GoMap.set] at hq
      split at hq
      · rename_i hqp
        cases hq
        simp [CreateComponent, hqp]
      · exact hm.1 q c hq
    · intro o ov ho
      obtain ⟨h1, h2, h3⟩ := hm.2 o ov ho
      refine ⟨h1, h2, ?_⟩
      simp only [GoMap.set]
      split
      · rfl
      · exact h3
    · ext q
      simp only [Manifest.componentPaths, Set.mem_setOf_eq, Set.mem_union,
        Set.mem_singleton_iff, GoMap.set]
      by_cases hq : q = p
      · simp [hq]
      · simp [hq]

/-- When the component path can be cut out of the overlay path, `addOverlay`
returns, keeps the index consistent, and adds exactly the overlay path and its
component path. -/
theorem addOverlay_spec (m : Manifest) (o p : String) (hm : m.Consistent)
    (hp : overlayComponentPath o = some p) :
    ∃ m1 ov, m.addOverlay o = some (m1, ov) ∧ m1.Consistent ∧
      m1.overlays o = some ov ∧ ov.component = p ∧
      m1.componentPaths = m.componentPaths ∪ {p} ∧
      m1.overlayPaths = m.overlayPaths ∪ {o} := by
  unfold Manifest.addOverlay
  cases h : m.overlays o with
  | some ov =>
    obtain ⟨h1, h2, h3⟩ := hm.2 o ov h
    have hpe : ov.component = p := by
      rw [hp] at h2
      exact (Option.some.inj h2).symm
    refine ⟨m, ov, rfl, hm, h, hpe, ?_, ?_⟩
    · ext q
      simp only [Manifest.componentPaths, Set.mem_setOf_eq, Set.mem_union,
        Set.mem_singleton_iff]
      constructor
      · exact Or.inl
      · rintro (hq | rfl)
        · exact hq
        · rw [← hpe]; exact h3
    · ext q
      simp only [Manifest.overlayPaths, Set.mem_setOf_eq, Set.mem_union,
        Set.mem_singleton_iff]
      constructor
      · exact Or.inl
      · rintro (hq | rfl)
        · exact hq
        · simp [h]
  | none =>
    have hp' : sliceTo o (LastIndex o "overlays" - 1) = some p := hp
    obtain ⟨hc, hpath, hget, hcp, hov⟩ := addComponent_spec m p hm
    simp only [hp']
    refine ⟨_, _, rfl, ⟨?_, ?_⟩, by simp [GoMap.set], by simp [CreateOverlay, hpath], ?_, ?_⟩
    · intro q c hq
      simp only [GoMap.set] at hq
      split at hq
      · rename_i hqp
        cases hq
        simp [Component.AddOverlay, hpath, hqp]
      · exact hc.1 q c hq
    · intro o' ov' ho'
      simp only [GoMap.set] at ho'
      split at ho'
      · rename_i hoo
        cases ho'
        refine ⟨by simp [CreateOverlay, hoo], ?_, ?_⟩
        · simp [CreateOverlay, hpath, hoo, hp]
        · simp [CreateOverlay, hpath, GoMap.set]
      · rw [hov] at ho'
        obtain ⟨h1, h2, h3⟩ := hm.2 o' ov' ho'
        refine ⟨h1, h2, ?_⟩
        simp only [GoMap.set]
        split
        · rfl
        · have : ov'.component ∈ (m.addComponent p).1.componentPaths := by
            rw [hcp]; exact Or.inl h3
          exact this
    · ext q
      have hmem : q ∈ (m.addComponent p).1.componentPaths ↔ q ∈ m.componentPaths ∪ {p} := by
        rw [hcp]
      simp only [Manifest.componentPaths, Set.mem_setOf_eq, Set.mem_union,
        Set.mem_singleton_iff, GoMap.set] at hmem ⊢
      by_cases hq : q = p
      · simp [hq]
      · simp only [hq, if_false, or_false]
        simpa [hq] using hmem
    · ext q
      simp only [Manifest.overlayPaths, Set.mem_setOf_eq, Set.mem_union,
        Set.mem_singleton_iff, GoMap.set, hov]
      by_cases hq : q = o
      · simp [hq]
      · simp [hq]

/-- One loop iteration, when the component path of its overlay can be cut out,
returns and adds exactly the paths of that iteration. -/
theorem loadStep_spec (parts : List String) (m : Manifest) (i : Nat) (hm : m.Consistent)
    (hok : ∀ o, overlayAt parts i = some o → (overlayComponentPath o).isSome = true) :
    ∃ m1, loadStep parts m i = some m1 ∧ m1.Consistent ∧
      m1.componentPaths = m.componentPaths ∪ stepComponents parts i ∧
      m1.overlayPaths = m.overlayPaths ∪ stepOverlays parts i := by
  -- the first statement of the loop body
  have hfirst : ∃ m0 : Manifest, m0 =
      (if parts.getD i "" = "base" then (m.addComponent (Join (parts.take i) "/")).1 else m) ∧
      m0.Consistent ∧
      m0.componentPaths = m.componentPaths ∪ {q | baseAt parts i = some q} ∧
      m0.overlayPaths = m.overlayPaths := by
    refine ⟨_, rfl, ?_⟩
    by_cases hb : parts.getD i "" = "base"
    · obtain ⟨h1, _, _, h4, h5⟩ := addComponent_spec m (Join (parts.take i) "/") hm
      rw [if_pos hb]
      refine ⟨h1, ?_, ?_⟩
      · rw [h4]
        congr 1
        ext q
        simp only [baseAt, if_pos hb, Option.some.injEq, Set.mem_singleton_iff,
          Set.mem_setOf_eq]
        exact eq_comm
      · simp only [Manifest.overlayPaths, h5]
    · rw [if_neg hb]
      refine ⟨hm, ?_, rfl⟩
      ext q
      simp only [baseAt, if_neg hb, Set.mem_union, Set.mem_setOf_eq]
      simp
  obtain ⟨m0, hm0, hc0, hcp0, hop0⟩ := hfirst
  unfold loadStep
  simp only []
  rw [← hm0]
  by_cases ho : 0 < i ∧ parts.getD (i - 1) "" = "overlays"
  · have hat : overlayAt parts i = some (Join (parts.take (i + 1)) "/") := by
      unfold overlayAt
      rw [if_pos ho]
    obtain ⟨p, hp⟩ := Option.isSome_iff_exists.mp (hok _ hat)
    obtain ⟨m1, ov, h1, h2, _, _, h5, h6⟩ := addOverlay_spec m0 _ p hc0 hp
    refine ⟨m1, by rw [if_pos ho, h1]; rfl, h2, ?_, ?_⟩
    · rw [h5, hcp0]
      ext q
      simp only [stepComponents, Set.mem_union, Set.mem_setOf_eq, Set.mem_singleton_iff, hat,
        Option.some.injEq, exists_eq_left', hp]
      constructor
      · rintro ((h | h) | h)
        · exact Or.inl h
        · exact Or.inr (Or.inl h)
        · exact Or.inr (Or.inr h.symm)
      · rintro (h | h | h)
        · exact Or.inl (Or.inl h)
        · exact Or.inl (Or.inr h)
        · exact Or.inr h.symm
    · rw [h6, hop0]
      ext q
      simp only [stepOverlays, hat, Set.mem_union, Set.mem_setOf_eq, Set.mem_singleton_iff,
        Option.some.injEq]
      constructor
      · rintro (h | h)
        · exact Or.inl h
        · exact Or.inr h.symm
      · rintro (h | h)
        · exact Or.inl h
        · exact Or.inr h.symm
  · have hat : overlayAt parts i = none := by
      unfold overlayAt
      rw [if_neg ho]
    refine ⟨m0, by rw [if_neg ho], hc0, ?_, ?_⟩
    · rw [hcp0]
      ext q
      simp [stepComponents, hat]
    · rw [hop0]
      ext q
      simp [stepOverlays, hat]

/-- A fold of a step that extends a consistent index by given sets of paths
extends it by the union of these sets. -/
theorem foldlM_extends {A : Type} (f : Manifest → A → Option Manifest) (ok : A → Prop)
    (C O : A → Set String)
    (hstep : ∀ m a, m.Consistent → ok a →
      ∃ m1, f m a = some m1 ∧ m1.Consistent ∧
        m1.componentPaths = m.componentPaths ∪ C a ∧
        m1.overlayPaths = m.overlayPaths ∪ O a) :
    ∀ (l : List A) (m : Manifest), m.Consistent → (∀ a ∈ l, ok a) →
      ∃ m1, l.foldlM f m = some m1 ∧ m1.Consistent ∧
        m1.componentPaths = m.componentPaths ∪ {q | ∃ a ∈ l, q ∈ C a} ∧
        m1.overlayPaths = m.overlayPaths ∪ {q | ∃ a ∈ l, q ∈ O a} := by
  intro l
  induction l with
  | nil =>
    intro m hm _
    exact ⟨m, rfl, hm, by simp, by simp⟩
  | cons a rest ih =>
    intro m hm hok
    obtain ⟨m1, h1, h2, h3, h4⟩ := hstep m a hm (hok a (List.mem_cons_self a rest))
    obtain ⟨m2, g1, g2, g3, g4⟩ := ih m1 h2 (fun b hb => hok b (List.mem_cons_of_mem a hb))
    refine ⟨m2, by simp [List.foldlM_cons, h1, g1], g2, ?_, ?_⟩
    · rw [g3, h3]
      ext q
      simp only [Set.mem_union, Set.mem_setOf_eq, List.mem_cons, exists_eq_or_imp]
      tauto
    · rw [g4, h4]
      ext q
      simp only [Set.mem_union, Set.mem_setOf_eq, List.mem_cons, exists_eq_or_imp]
      tauto

/-- The walk callback, when the component paths of its overlays can be cut out,
returns and adds exactly the paths of the visit. -/
theorem walkFn_spec (m : Manifest) (v : List String × Bool) (hm : m.Consistent)
    (hok : ∀ o ∈ visitOverlays v, (overlayComponentPath o).isSome = true) :
    ∃ m1, walkFn m v = some m1 ∧ m1.Consistent ∧
      m1.componentPaths = m.componentPaths ∪ visitComponents v ∧
      m1.overlayPaths = m.overlayPaths ∪ visitOverlays v := by
  unfold walkFn
  cases hd : v.2 with
  | false =>
    refine ⟨m, by simp, hm, ?_, ?_⟩
    · ext q; simp [visitComponents, hd]
    · ext q; simp [visitOverlays, hd]
  | true =>
    obtain ⟨m1, h1, h2, h3, h4⟩ :=
      foldlM_extends (loadStep v.1)
        (fun i => i < v.1.length ∧
          ∀ o, overlayAt v.1 i = some o → (overlayComponentPath o).isSome = true)
        (stepComponents v.1) (stepOverlays v.1)
        (fun m i hm hi => loadStep_spec v.1 m i hm hi.2)
        (List.range v.1.length) m hm
        (fun i hi => ⟨List.mem_range.mp hi, fun o ho =>
          hok o ⟨hd, i, List.mem_range.mp hi, ho⟩⟩)
    refine ⟨m1, by simpa using h1, h2, ?_, ?_⟩
    · rw [h3]
      ext q
      simp [visitComponents, hd, List.mem_range]
    · rw [h4]
      ext q
      simp [visitOverlays, hd, List.mem_range]

/-- The index `LoadManifest` starts from is consistent. -/
theorem empty_consistent (manifestRoot : String) :
    ({ path := manifestRoot, components := GoMap.empty, overlays := GoMap.empty } :
      Manifest).Consistent := by
  constructor
  · intro q c h; simp [GoMap.empty] at h
  · intro o ov h; simp [GoMap.empty] at h

/-- When every overlay path met on the walk has a component path that can be cut
out of it, `LoadManifest` returns an index; its components are the parents of the
`base` segments together with the component paths cut out of the overlay paths,
and its overlays are the paths ending below an `overlays` segment. -/
theorem LoadManifest_spec (manifestRoot : String) (root : DirEntries)
    (hok : ∀ v ∈ walk root, ∀ o ∈ visitOverlays v, (overlayComponentPath o).isSome = true) :
    ∃ m, LoadManifest manifestRoot root = some m ∧ m.Consistent ∧
      m.componentPaths = {q | ∃ v ∈ walk root, q ∈ visitComponents v} ∧
      m.overlayPaths = {o | ∃ v ∈ walk root, o ∈ visitOverlays v} := by
  obtain ⟨m, h1, h2, h3, h4⟩ :=
    foldlM_extends walkFn (fun v => ∀ o ∈ visitOverlays v, (overlayComponentPath o).isSome = true)
      visitComponents visitOverlays (fun m v hm hv => walkFn_spec m v hm hv)
      (walk root) _ (empty_consistent manifestRoot) hok
  refine ⟨m, h1, h2, ?_, ?_⟩
  · rw [h3]
    ext q
    simp [Manifest.componentPaths, GoMap.empty]
  · rw [h4]
    ext q
    simp [Manifest.overlayPaths, GoMap.empty]

/-- Joining a non-empty path with two more segments. -/
theorem Join_append_two (sep a b : String) :
    ∀ pre : List String, pre ≠ [] →
      Join (pre ++ [a, b]) sep = Join pre sep ++ sep ++ a ++ sep ++ b := by
  intro pre
  induction pre with
  | nil => intro h; exact absurd rfl h
  | cons x rest ih =>
    intro _
    cases rest with
    | nil => simp [Join, String.append_assoc]
    | cons y rest =>
      have := ih (List.cons_ne_nil y rest)
      simp only [List.cons_append] at this ⊢
      simp only [Join, this, String.append_assoc]

/-- The last occurrence in a suffix is the last occurrence in the whole text. -/
theorem lastIndexChars_append (sub Y : List Char) (k : Nat)
    (h : lastIndexChars sub Y = some k) :
    ∀ X : List Char, lastIndexChars sub (X ++ Y) = some (X.length + k) := by
  intro X
  induction X with
  | nil => simpa using h
  | cons c X ih =>
    have hc : lastIndexChars sub (c :: (X ++ Y)) = some (X.length + k + 1) := by
      rw [lastIndexChars, ih]
    rw [List.cons_append, hc, List.length_cons, Nat.add_right_comm]

/-- A text has no first occurrence exactly when it has no last occurrence. -/
theorem indexChars_none_iff (sub : List Char) :
    ∀ s : List Char, indexChars sub s = none ↔ lastIndexChars sub s = none := by
  intro s
  induction s with
  | nil => simp [indexChars, lastIndexChars]
  | cons c rest ih =>
    simp only [indexChars, lastIndexChars]
    by_cases hp : sub.isPrefixOf (c :: rest) = true
    · simp only [hp, if_true]
      cases lastIndexChars sub rest <;> simp
    · simp only [hp, if_false, Option.map_eq_none', ih, Bool.false_eq_true]
      cases lastIndexChars sub rest <;> simp

/-- A text that does not contain `sub` has no last occurrence of it. -/
theorem lastIndexChars_none_of_not_Contains (n sub : String) (h : Contains n sub = false) :
    lastIndexChars sub.toList n.toList = none := by
  rw [← indexChars_none_iff]
  unfold Contains Index at h
  cases hi : indexChars sub.toList n.toList with
  | none => rfl
  | some k =>
    rw [hi] at h
    simp at h

/-- In `/overlays/<n>`, with no occurrence inside `n`, the last occurrence of
`overlays` is at position 1. -/
theorem lastIndexChars_overlays_leaf (n : List Char)
    (h : lastIndexChars "overlays".toList n = none) :
    lastIndexChars "overlays".toList ("/overlays/".toList ++ n) = some 1 := by
  have e1 : "overlays".toList = ['o', 'v', 'e', 'r', 'l', 'a', 'y', 's'] := rfl
  have e2 : "/overlays/".toList = ['/', 'o', 'v', 'e', 'r', 'l', 'a', 'y', 's', '/'] := rfl
  rw [e1] at h ⊢
  rw [e2]
  simp [lastIndexChars, h, List.isPrefixOf]

/-- The component path cut out of `<pre>/overlays/<n>` is `<pre>` when `pre` is
not empty and the leaf name `n` does not contain the text `overlays`. -/
theorem overlayComponentPath_leaf (pre : List String) (n : String) (hpre : pre ≠ [])
    (hn : Contains n "overlays" = false) :
    overlayComponentPath (Join (pre ++ ["overlays", n]) "/") = some (Join pre "/") := by
  have hjoin : (Join (pre ++ ["overlays", n]) "/").toList =
      (Join pre "/").toList ++ ("/overlays/".toList ++ n.toList) := by
    rw [Join_append_two "/" "overlays" n pre hpre]
    simp [String.toList]
  have hlast : LastIndex (Join (pre ++ ["overlays", n]) "/") "overlays" =
      ((Join pre "/").toList.length + 1 : Nat) := by
    unfold LastIndex
    rw [hjoin, lastIndexChars_append _ _ 1
      (lastIndexChars_overlays_leaf _ (lastIndexChars_none_of_not_Contains n "overlays" hn))]
  unfold overlayComponentPath sliceTo
  rw [hlast]
  have hlen : (Join (pre ++ ["overlays", n]) "/").length =
      (Join pre "/").toList.length + ("/overlays/".toList ++ n.toList).length := by
    rw [← List.length_append, ← hjoin]
    rfl
  have hcond : (0 : Int) ≤ ((Join pre "/").toList.length + 1 : Nat) - 1 ∧
      (((Join pre "/").toList.length + 1 : Nat) : Int) - 1 ≤
        ((Join (pre ++ ["overlays", n]) "/").length : Int) := by
    rw [hlen]
    constructor <;> push_cast <;> omega
  rw [if_pos hcond, hjoin]
  have htn : ((((Join pre "/").toList.length + 1 : Nat) : Int) - 1).toNat =
      (Join pre "/").toList.length := by
    push_cast
    omega
  rw [htn, List.take_left']
  · rfl
  · rfl

/-- The first `i + 1` segments are the first `i` segments and segment `i`. -/
theorem take_succ_of_lt (parts : List String) (i : Nat) (h : i < parts.length) :
    parts.take (i + 1) = parts.take i ++ [parts.getD i ""] := by
  rw [List.take_succ, List.getD_eq_getElem?_getD, List.getElem?_eq_getElem h]
  rfl

/-- The directories of a tree are the directory visits of the walk. -/
theorem mem_dirsOf (root : DirEntries) (d : List String) :
    d ∈ dirsOf root ↔ (d, true) ∈ walkBelow [] root := by
  unfold dirsOf
  simp only [List.mem_map, List.mem_filter, Prod.exists]
  constructor
  · rintro ⟨a, b, ⟨hm, hb⟩, rfl⟩
    have hb1 : b = true := hb
    subst hb1
    exact hm
  · intro h
    exact ⟨d, true, ⟨h, rfl⟩, rfl⟩

/-- Every visit below `pre` has a path that extends `pre` by at least one segment. -/
theorem walkBelow_length (t : DirEntries) :
    ∀ (pre : List String) (v : List String × Bool), v ∈ walkBelow pre t →
      pre.length < v.1.length ∧ v.1.take pre.length = pre := by
  induction t with
  | done => intro pre v h; simp [walkBelow] at h
  | file name rest ih =>
    intro pre v h
    simp only [walkBelow, List.mem_cons] at h
    rcases h with rfl | h
    · simp
    · exact ih pre v h
  | dir name sub rest ihs ihr =>
    intro pre v h
    simp only [walkBelow, List.mem_cons, List.mem_append] at h
    rcases h with rfl | h | h
    · simp
    · obtain ⟨h1, h2⟩ := ihs (pre ++ [name]) v h
      simp only [List.length_append, List.length_singleton] at h1 h2
      refine ⟨by omega, ?_⟩
      have := congrArg (List.take pre.length) h2
      rw [List.take_take, List.take_left' rfl] at this
      rwa [min_eq_left (by omega)] at this
    · exact ihr pre v h

/-- Every ancestor of a visited directory, up to the directory the walk started
below, is a visited directory. -/
theorem walkBelow_ancestor (t : DirEntries) :
    ∀ (pre parts : List String), (parts, true) ∈ walkBelow pre t →
      ∀ k, pre.length < k → k ≤ parts.length → (parts.take k, true) ∈ walkBelow pre t := by
  induction t with
  | done => intro pre parts h; simp [walkBelow] at h
  | file name rest ih =>
    intro pre parts h k hk1 hk2
    simp only [walkBelow, List.mem_cons, Prod.mk.injEq, Bool.true_eq_false, and_false,
      false_or] at h ⊢
    exact ih pre parts h k hk1 hk2
  | dir name sub rest ihs ihr =>
    intro pre parts h k hk1 hk2
    simp only [walkBelow, List.mem_cons, List.mem_append, Prod.mk.injEq, and_true] at h ⊢
    rcases h with rfl | h | h
    · left
      simp only [List.length_append, List.length_singleton] at hk2
      exact List.take_of_length_le (by simp; omega)
    · obtain ⟨h1, h2⟩ := walkBelow_length sub (pre ++ [name]) (parts, true) h
      simp only [List.length_append, List.length_singleton] at h1 h2
      by_cases hk : k = pre.length + 1
      · left
        rw [hk]
        exact h2
      · right; left
        exact ihs (pre ++ [name]) parts h k (by simp; omega) hk2
    · right; right
      exact ihr pre parts h k hk1 hk2

/-- The last of the first `i + 1` segments is segment `i`. -/
theorem getLast?_take_succ (parts : List String) (i : Nat) (h : i < parts.length) :
    (parts.take (i + 1)).getLast? = some (parts.getD i "") := by
  rw [take_succ_of_lt parts i h]
  simp

/-- Dropping the last of the first `i + 1` segments leaves the first `i`. -/
theorem dropLast_take_succ (parts : List String) (i : Nat) (h : i < parts.length) :
    (parts.take (i + 1)).dropLast = parts.take i := by
  rw [take_succ_of_lt parts i h]
  simp

/-- The parent of the first `i + 1` segments is named by segment `i - 1`. -/
theorem parentName_take_succ (parts : List String) (i : Nat) (h : i < parts.length)
    (hi : 0 < i) :
    parentName (parts.take (i + 1)) = some (parts.getD (i - 1) "") := by
  unfold parentName
  rw [dropLast_take_succ parts i h]
  obtain ⟨j, rfl⟩ : ∃ j, i = j + 1 := ⟨i - 1, by omega⟩
  rw [getLast?_take_succ parts j (by omega)]
  rfl

/-- A path of one segment has the root as parent. -/
theorem parentName_take_zero (parts : List String) :
    parentName (parts.take (0 + 1)) = none := by
  unfold parentName
  cases parts <;> simp

/-- The last segment of a path is the segment at index `length - 1`. -/
theorem getD_last (d : List String) (x : String) (h : d.getLast? = some x) :
    d.getD (d.length - 1) "" = x ∧ d.length - 1 < d.length ∧ d.take (d.length - 1 + 1) = d := by
  have hne : d ≠ [] := by
    rintro rfl
    simp at h
  have hlen : 0 < d.length := List.length_pos.mpr hne
  refine ⟨?_, by omega, ?_⟩
  · rw [List.getLast?_eq_getElem?] at h
    rw [List.getD_eq_getElem?_getD, h]
    rfl
  · exact List.take_of_length_le (by omega)

/-- The paths registered for `base` segments are the parents of the directories
named `base`. -/
theorem base_events (root : DirEntries) (q : String) :
    (∃ v ∈ walk root, v.2 = true ∧ ∃ i, i < v.1.length ∧ baseAt v.1 i = some q) ↔
      ∃ d ∈ dirsOf root, d.getLast? = some "base" ∧ q = Join d.dropLast "/" := by
  constructor
  · rintro ⟨v, hv, hd, i, hi, hb⟩
    unfold baseAt at hb
    split at hb
    · rename_i hbase
      simp only [walk, List.mem_cons] at hv
      rcases hv with rfl | hv
      · have : i = 0 := by simpa using hi
        subst this
        exact absurd hbase (by decide)
      · obtain ⟨parts, b⟩ := v
        simp only at hd hi hbase hb
        subst hd
        refine ⟨parts.take (i + 1), ?_, ?_, ?_⟩
        · rw [mem_dirsOf]
          exact walkBelow_ancestor root [] parts hv (i + 1) (by simp) (by omega)
        · rw [getLast?_take_succ parts i hi, hbase]
        · rw [dropLast_take_succ parts i hi]
          exact (Option.some.inj hb).symm
    · exact absurd hb (by simp)
  · rintro ⟨d, hd, hlast, rfl⟩
    obtain ⟨h1, h2, _⟩ := getD_last d "base" hlast
    refine ⟨(d, true), ?_, rfl, d.length - 1, h2, ?_⟩
    · simp only [walk, List.mem_cons]
      exact Or.inr ((mem_dirsOf root d).mp hd)
    · unfold baseAt
      rw [if_pos h1, List.dropLast_eq_take]

/-- The paths registered as overlays are the directories whose parent is named
`overlays`. -/
theorem overlay_events (root : DirEntries) (o : String) :
    (∃ v ∈ walk root, o ∈ visitOverlays v) ↔
      ∃ d ∈ dirsOf root, parentName d = some "overlays" ∧ o = Join d "/" := by
  constructor
  · rintro ⟨v, hv, hd, i, hi, hb⟩
    simp only [stepOverlays, Set.mem_setOf_eq] at hb
    unfold overlayAt at hb
    split at hb
    · rename_i hov
      simp only [walk, List.mem_cons] at hv
      rcases hv with rfl | hv
      · have : i = 0 := by simpa using hi
        omega
      · obtain ⟨parts, b⟩ := v
        simp only at hd hi hov hb
        subst hd
        refine ⟨parts.take (i + 1), ?_, ?_, ?_⟩
        · rw [mem_dirsOf]
          exact walkBelow_ancestor root [] parts hv (i + 1) (by simp) (by omega)
        · rw [parentName_take_succ parts i hi hov.1, hov.2]
        · exact (Option.some.inj hb).symm
    · exact absurd hb (by simp)
  · rintro ⟨d, hd, hpar, rfl⟩
    have hne : d.getLast? ≠ none := by
      intro h
      rw [List.getLast?_eq_none_iff] at h
      subst h
      simp [parentName] at hpar
    obtain ⟨x, hx⟩ := Option.ne_none_iff_exists'.mp hne
    obtain ⟨_, h2, h3⟩ := getD_last d x hx
    have hpos : 0 < d.length - 1 := by
      by_contra hc
      have h0 : d.length - 1 = 0 := by omega
      rw [← h3, h0, parentName_take_zero] at hpar
      simp at hpar
    have hpn := parentName_take_succ d (d.length - 1) h2 hpos
    rw [h3, hpar] at hpn
    refine ⟨(d, true), ?_, rfl, d.length - 1, h2, ?_⟩
    · simp only [walk, List.mem_cons]
      exact Or.inr ((mem_dirsOf root d).mp hd)
    · simp only [stepOverlays, Set.mem_setOf_eq]
      unfold overlayAt
      rw [if_pos ⟨hpos, (Option.some.inj hpn).symm⟩, h3]

/-- A directory below an `overlays` directory that is not directly under the
root splits into a non-empty owner path, the segment `overlays` and a leaf. -/
theorem overlay_dir_split (d : List String) (hpar : parentName d = some "overlays")
    (hlen : 2 < d.length) :
    ∃ pre, pre ≠ [] ∧ d = pre ++ ["overlays", d.getLastD ""] ∧ d.dropLast.dropLast = pre := by
  have h1 : d = d.dropLast ++ [d.getLastD ""] := by
    have hne : d ≠ [] := by rintro rfl; simp at hlen
    conv_lhs => rw [← List.dropLast_append_getLast hne]
    rw [List.getLastD_eq_getLast?, List.getLast?_eq_getLast _ hne]
    rfl
  have h2 : d.dropLast = d.dropLast.dropLast ++ ["overlays"] := by
    have hne : d.dropLast ≠ [] := by
      intro h
      have := congrArg List.length h
      simp at this
      omega
    unfold parentName at hpar
    conv_lhs => rw [← List.dropLast_append_getLast hne]
    rw [List.getLast?_eq_getLast _ hne] at hpar
    rw [Option.some.inj hpar]
  refine ⟨d.dropLast.dropLast, ?_, ?_, rfl⟩
  · intro h
    have := congrArg List.length h
    simp at this
    omega
  · conv_lhs => rw [h1, h2]
    simp

/-- The component path cut out of the path of a directory below an `overlays`
directory is the path of the directory above `overlays`, when that one is not the
root and the leaf name does not contain the text `overlays`. -/
theorem overlayComponentPath_dir (d : List String) (hpar : parentName d = some "overlays")
    (hlen : 2 < d.length) (hleaf : Contains (d.getLastD "") "overlays" = false) :
    overlayComponentPath (Join d "/") = some (Join d.dropLast.dropLast "/") := by
  obtain ⟨pre, hpre, hd, hdd⟩ := overlay_dir_split d hpar hlen
  rw [hdd]
  conv_lhs => rw [hd]
  exact overlayComponentPath_leaf pre _ hpre hleaf

/-- The index `LoadManifest` builds for a tree in which every directory below an
`overlays` directory has a leaf name without the text `overlays` and an
`overlays` parent that is not directly under the root. -/
theorem LoadManifest_index (manifestRoot : String) (root : DirEntries)
    (hleaf : ∀ d ∈ dirsOf root, parentName d = some "overlays" →
      2 < d.length ∧ Contains (d.getLastD "") "overlays" = false) :
    ∃ m, LoadManifest manifestRoot root = some m ∧
      (∀ q, (m.GetComponent q).isSome = true ↔
        (∃ d ∈ dirsOf root, d.getLast? = some "base" ∧ q = Join d.dropLast "/") ∨
        (∃ d ∈ dirsOf root, parentName d = some "overlays" ∧
          q = Join d.dropLast.dropLast "/")) ∧
      (∀ o, (m.GetOverlay o).isSome = true ↔
        ∃ d ∈ dirsOf root, parentName d = some "overlays" ∧ o = Join d "/") ∧
      (∀ d ∈ dirsOf root, parentName d = some "overlays" →
        m.GetOverlay (Join d "/") =
          some { path := Join d "/", component := Join d.dropLast.dropLast "/" }) := by
  have hown : ∀ o, (∃ v ∈ walk root, o ∈ visitOverlays v) →
      ∃ d ∈ dirsOf root, parentName d = some "overlays" ∧ o = Join d "/" ∧
        overlayComponentPath o = some (Join d.dropLast.dropLast "/") := by
    intro o ho
    obtain ⟨d, hd, hpar, rfl⟩ := (overlay_events root o).mp ho
    obtain ⟨h1, h2⟩ := hleaf d hd hpar
    exact ⟨d, hd, hpar, rfl, overlayComponentPath_dir d hpar h1 h2⟩
  obtain ⟨m, hm, hcons, hcomp, hov⟩ := LoadManifest_spec manifestRoot root (by
    intro v hv o ho
    obtain ⟨d, _, _, _, h⟩ := hown o ⟨v, hv, ho⟩
    rw [h]
    rfl)
  have hovs : ∀ o, (m.GetOverlay o).isSome = true ↔
      ∃ d ∈ dirsOf root, parentName d = some "overlays" ∧ o = Join d "/" := by
    intro o
    rw [← overlay_events]
    have : o ∈ m.overlayPaths ↔ o ∈ {o | ∃ v ∈ walk root, o ∈ visitOverlays v} := by rw [hov]
    exact this
  refine ⟨m, hm, ?_, hovs, ?_⟩
  · intro q
    have hq : q ∈ m.componentPaths ↔ q ∈ {q | ∃ v ∈ walk root, q ∈ visitComponents v} := by
      rw [hcomp]
    refine Iff.trans hq ?_
    simp only [Set.mem_setOf_eq, visitComponents, stepComponents]
    constructor
    · rintro ⟨v, hv, hd, i, hi, hb | ⟨o, ho, hp⟩⟩
      · exact Or.inl ((base_events root q).mp ⟨v, hv, hd, i, hi, hb⟩)
      · obtain ⟨d, hd', hpar, _, h⟩ := hown o ⟨v, hv, hd, i, hi, ho⟩
        rw [h] at hp
        exact Or.inr ⟨d, hd', hpar, (Option.some.inj hp).symm⟩
    · rintro (h | ⟨d, hd, hpar, rfl⟩)
      · obtain ⟨v, hv, hd, i, hi, hb⟩ := (base_events root q).mpr h
        exact ⟨v, hv, hd, i, hi, Or.inl hb⟩
      · obtain ⟨v, hv, hd', i, hi, ho⟩ := (overlay_events root _).mpr ⟨d, hd, hpar, rfl⟩
        obtain ⟨h1, h2⟩ := hleaf d hd hpar
        exact ⟨v, hv, hd', i, hi, Or.inr ⟨_, ho, overlayComponentPath_dir d hpar h1 h2⟩⟩
  · intro d hd hpar
    obtain ⟨ov, hov'⟩ := Option.isSome_iff_exists.mp ((hovs _).mpr ⟨d, hd, hpar, rfl⟩)
    obtain ⟨h1, h2, _⟩ := hcons.2 _ ov hov'
    obtain ⟨g1, g2⟩ := hleaf d hd hpar
    rw [overlayComponentPath_dir d hpar g1 g2] at h2
    rw [hov']
    obtain ⟨p, c⟩ := ov
    simp only at h1 h2
    rw [h1, ← Option.some.inj h2]

/-- When `addOverlay` returns, the component path could be cut out of the overlay
path. -/
theorem addOverlay_isSome (m : Manifest) (o : String) (hm : m.Consistent)
    (h : (m.addOverlay o).isSome = true) : (overlayComponentPath o).isSome = true := by
  unfold Manifest.addOverlay at h
  cases ho : m.overlays o with
  | some ov =>
    rw [(hm.2 o ov ho).2.1]
    rfl
  | none =>
    rw [ho] at h
    simp only [] at h
    cases hs : sliceTo o (LastIndex o "overlays" - 1) with
    | none =>
      rw [hs] at h
      simp at h
    | some p =>
      unfold overlayComponentPath
      rw [hs]
      rfl

/-- When a loop iteration returns, the component path of the overlay it registers
could be cut out. -/
theorem loadStep_isSome (parts : List String) (m : Manifest) (i : Nat) (hm : m.Consistent)
    (h : (loadStep parts m i).isSome = true) :
    ∀ o, overlayAt parts i = some o → (overlayComponentPath o).isSome = true := by
  intro o ho
  unfold overlayAt at ho
  split at ho
  · rename_i hcond
    have ho' := Option.some.inj ho
    subst ho'
    unfold loadStep at h
    simp only [] at h
    rw [if_pos hcond] at h
    have hc0 : (if parts.getD i "" = "base" then
        (m.addComponent (Join (parts.take i) "/")).1 else m).Consistent := by
      split
      · exact (addComponent_spec m _ hm).1
      · exact hm
    refine addOverlay_isSome _ _ hc0 ?_
    revert h
    cases Manifest.addOverlay _ (Join (List.take (i + 1) parts) "/") <;> simp
  · exact absurd ho (by simp)

/-- When a fold of a step returns, every element it ran over satisfied the
condition under which the step returns. -/
theorem foldlM_isSome {A : Type} (f : Manifest → A → Option Manifest) (ok : A → Prop)
    (hcons : ∀ m a m1, m.Consistent → f m a = some m1 → m1.Consistent)
    (hok : ∀ m a, m.Consistent → (f m a).isSome = true → ok a) :
    ∀ (l : List A) (m : Manifest), m.Consistent → (l.foldlM f m).isSome = true →
      ∀ a ∈ l, ok a := by
  intro l
  induction l with
  | nil => intro m _ _ a ha; simp at ha
  | cons b rest ih =>
    intro m hm h a ha
    rw [List.foldlM_cons] at h
    cases hb : f m b with
    | none =>
      rw [hb] at h
      simp at h
    | some m1 =>
      rw [hb] at h
      rcases List.mem_cons.mp ha with rfl | hr
      · exact hok m a hm (by rw [hb]; rfl)
      · exact ih m1 (hcons m b m1 hm hb) h a hr

/-- `LoadManifest` returns an index exactly when a component path can be cut out
of every overlay path met on the walk; the index it returns has as overlays
exactly the directories whose parent is named `overlays`. -/
theorem LoadManifest_overlays (manifestRoot : String) (root : DirEntries) :
    ((LoadManifest manifestRoot root).isSome = true ↔
      ∀ d ∈ dirsOf root, parentName d = some "overlays" →
        (overlayComponentPath (Join d "/")).isSome = true) ∧
    ∀ m, LoadManifest manifestRoot root = some m →
      ∀ o, (m.GetOverlay o).isSome = true ↔
        ∃ d ∈ dirsOf root, parentName d = some "overlays" ∧ o = Join d "/" := by
  have hstepc : ∀ (parts : List String) (m : Manifest) (i : Nat) (m1 : Manifest),
      m.Consistent → loadStep parts m i = some m1 → m1.Consistent := by
    intro parts m i m1 hm h
    obtain ⟨m2, h1, h2, _⟩ := loadStep_spec parts m i hm
      (loadStep_isSome parts m i hm (by rw [h]; rfl))
    rw [h] at h1
    rw [Option.some.inj h1]
    exact h2
  have hvisit : ∀ (m : Manifest) (v : List String × Bool), m.Consistent →
      (walkFn m v).isSome = true →
      ∀ o ∈ visitOverlays v, (overlayComponentPath o).isSome = true := by
    intro m v hm h o ho
    obtain ⟨hd, i, hi, hoi⟩ := ho
    unfold walkFn at h
    rw [hd] at h
    simp only [Bool.not_true, Bool.false_eq_true, if_false] at h
    exact foldlM_isSome (loadStep v.1)
      (fun i => ∀ o, overlayAt v.1 i = some o → (overlayComponentPath o).isSome = true)
      (hstepc v.1) (loadStep_isSome v.1) _ m hm h i (List.mem_range.mpr hi) o hoi
  have hvisitc : ∀ (m : Manifest) (v : List String × Bool) (m1 : Manifest),
      m.Consistent → walkFn m v = some m1 → m1.Consistent := by
    intro m v m1 hm h
    obtain ⟨m2, h1, h2, _⟩ := walkFn_spec m v hm (hvisit m v hm (by rw [h]; rfl))
    rw [h] at h1
    rw [Option.some.inj h1]
    exact h2
  have hreturns : (LoadManifest manifestRoot root).isSome = true →
      ∀ v ∈ walk root, ∀ o ∈ visitOverlays v, (overlayComponentPath o).isSome = true := by
    intro h
    exact foldlM_isSome walkFn
      (fun v => ∀ o ∈ visitOverlays v, (overlayComponentPath o).isSome = true)
      hvisitc hvisit (walk root) _ (empty_consistent manifestRoot) h
  constructor
  · constructor
    · intro h d hd hpar
      obtain ⟨v, hv, ho⟩ := (overlay_events root (Join d "/")).mpr ⟨d, hd, hpar, rfl⟩
      exact hreturns h v hv _ ho
    · intro h
      obtain ⟨m, hm, _⟩ := LoadManifest_spec manifestRoot root (by
        intro v hv o ho
        obtain ⟨d, hd, hpar, rfl⟩ := (overlay_events root o).mp ⟨v, hv, ho⟩
        exact h d hd hpar)
      rw [hm]
      rfl
  · intro m hm o
    obtain ⟨m1, h1, _, _, hov⟩ := LoadManifest_spec manifestRoot root
      (hreturns (by rw [hm]; rfl))
    rw [hm] at h1
    rw [← Option.some.inj h1] at hov
    rw [← overlay_events]
    have : o ∈ m.overlayPaths ↔ o ∈ {o | ∃ v ∈ walk root, o ∈ visitOverlays v} := by rw [hov]
    exact this

/-- C1 (as amended): for every directory tree in which every directory below an
`overlays` directory has a name without the text `overlays` and an `overlays`
parent that is not directly under the root, `LoadManifest` returns an index whose
component paths are exactly the parents of the directories named `base` together
with the paths above `overlays` of the directories whose parent is named
`overlays`. -/
theorem index_components (manifestRoot : String) (root : DirEntries)
    (hleaf : ∀ d ∈ dirsOf root, parentName d = some "overlays" →
      2 < d.length ∧ Contains (d.getLastD "") "overlays" = false) :
    ∃ m, LoadManifest manifestRoot root = some m ∧
      ∀ q, (m.GetComponent q).isSome = true ↔
        (∃ d ∈ dirsOf root, d.getLast? = some "base" ∧ q = Join d.dropLast "/") ∨
        (∃ d ∈ dirsOf root, parentName d = some "overlays" ∧
          q = Join d.dropLast.dropLast "/") := by
  obtain ⟨m, h1, h2, _⟩ := LoadManifest_index manifestRoot root hleaf
  exact ⟨m, h1, h2⟩

/-- C1 (as amended), instance: the tree `a/base`, `a/overlays/x`, `b/overlays/y`. -/
theorem index_components_witness :
    (∀ d ∈ dirsOf smallManifests, parentName d = some "overlays" →
      2 < d.length ∧ Contains (d.getLastD "") "overlays" = false) ∧
    ∃ m, LoadManifest ".onepanel/manifests" smallManifests = some m ∧
      ∀ q, (m.GetComponent q).isSome = true ↔
        (∃ d ∈ dirsOf smallManifests, d.getLast? = some "base" ∧ q = Join d.dropLast "/") ∨
        (∃ d ∈ dirsOf smallManifests, parentName d = some "overlays" ∧
          q = Join d.dropLast.dropLast "/") :=
  ⟨by decide, index_components ".onepanel/manifests" smallManifests (by decide)⟩

/-- C1, counterexample: on the tree `foo/overlays/x` the claim fails.  No
directory of the tree is named `base`, `LoadManifest` returns an index, and that
index has the component `foo`; so its component paths are not the parents of the
directories named `base`. -/
theorem index_components_counterexample :
    (∀ d ∈ dirsOf overlayWithoutBase, d.getLast? ≠ some "base") ∧
    (LoadManifest ".onepanel/manifests" overlayWithoutBase).map
      (fun m => m.GetComponent "foo") =
      some (some { path := "foo", overlays := ["foo/overlays/x"] }) ∧
    ¬ (∀ m, LoadManifest ".onepanel/manifests" overlayWithoutBase = some m →
        ∀ q, (m.GetComponent q).isSome = true ↔
          ∃ d ∈ dirsOf overlayWithoutBase, d.getLast? = some "base" ∧
            q = Join d.dropLast "/") := by
  have hbase : ∀ d ∈ dirsOf overlayWithoutBase, d.getLast? ≠ some "base" := by decide
  have hfoo : (LoadManifest ".onepanel/manifests" overlayWithoutBase).map
      (fun m => m.GetComponent "foo") =
      some (some { path := "foo", overlays := ["foo/overlays/x"] }) := by decide
  refine ⟨hbase, hfoo, ?_⟩
  intro hclaim
  cases hm : LoadManifest ".onepanel/manifests" overlayWithoutBase with
  | none =>
    rw [hm] at hfoo
    exact absurd hfoo (by simp)
  | some m =>
    rw [hm] at hfoo
    have hq : (m.GetComponent "foo").isSome = true := by
      have hval : m.GetComponent "foo" =
          some { path := "foo", overlays := ["foo/overlays/x"] } := Option.some.inj hfoo
      rw [hval]
      rfl
    obtain ⟨d, hd, hlast, _⟩ := (hclaim m hm "foo").mp hq
    exact hbase d hd hlast

/-- C2: on the tree `overlays/x`, whose directory `overlays/x` has a parent named
`overlays`, `LoadManifest` panics and returns no index. -/
theorem index_overlays_root_panics :
    ["overlays", "x"] ∈ dirsOf rootOverlays ∧
    parentName ["overlays", "x"] = some "overlays" ∧
    (LoadManifest ".onepanel/manifests" rootOverlays).isNone = true := by
  decide

/-- C3: on the tree `a/base`, `a/overlays/myoverlays` the overlay
`a/overlays/myoverlays` is attached to a component `a/overlays/m`, which
`LoadManifest` registers for it, and not to the component `a`, which carries no
overlay. -/
theorem overlay_owner_leaf_with_overlays :
    (LoadManifest ".onepanel/manifests" overlaysInLeafName).map
      (fun m => (m.GetOverlay "a/overlays/myoverlays", m.GetComponent "a/overlays/m",
        m.GetComponent "a")) =
      some (some { path := "a/overlays/myoverlays", component := "a/overlays/m" },
        some { path := "a/overlays/m", overlays := ["a/overlays/myoverlays"] },
        some { path := "a", overlays := [] }) := by
  decide

/-! ## Theorems: parameter validation -/

/-- C4: `Validate` accepts a parameter document exactly when
`application.defaultNamespace` is present with a value other than the empty string
and `onepanel`; it returns the error `application.defaultNamespace.missing` exactly
when the key is missing, `.blank` exactly when the value is the empty string and
`.reserved` exactly when the value is `onepanel`. -/
theorem Validate_rejects_iff (manifest : DynamicYaml) :
    (Validate manifest = none ↔
      ∃ n, manifest.GetValue "application.defaultNamespace" = some n ∧
        n.Value ≠ "" ∧ n.Value ≠ "onepanel") ∧
    (manifest.GetValue "application.defaultNamespace" = none ↔
      Validate manifest = some "application.defaultNamespace.missing") ∧
    ((∃ n, manifest.GetValue "application.defaultNamespace" = some n ∧ n.Value = "") ↔
      Validate manifest = some "application.defaultNamespace.blank") ∧
    ((∃ n, manifest.GetValue "application.defaultNamespace" = some n ∧
        n.Value = "onepanel") ↔
      Validate manifest = some "application.defaultNamespace.reserved") := by
  unfold Validate
  cases h : manifest.GetValue "application.defaultNamespace" with
  | none => simp
  | some n =>
    by_cases h1 : n.Value = ""
    · simp [h1]
    · by_cases h2 : n.Value = "onepanel"
      · simp [h2]
      · simp [h1, h2]

/-! ## Theorems: the apply controller -/

/-- The number of calls the retry loop makes from iteration `i` on, when the
first response without the retry text is `d` calls ahead. -/
theorem phase2From_calls (world : Nat → KubectlRun) :
    ∀ (remaining i d : Nat) (st : Phase2State),
      (∀ j, j < d → Contains (applyKubernetesFile (world (i + j))).errMessage
        "no matches for kind" = true) →
      Contains (applyKubernetesFile (world (i + d))).errMessage "no matches for kind" = false →
      (phase2From world i st remaining).calls = st.calls + min remaining (d + 1) := by
  intro remaining
  induction remaining with
  | zero => intro i d st _ _; simp [phase2From]
  | succ r ih =>
    intro i d st htr hfin
    cases d with
    | zero =>
      simp only [Nat.add_zero] at hfin
      simp [phase2From, hfin]
    | succ d =>
      have h0 := htr 0 (Nat.succ_pos d)
      simp only [Nat.add_zero] at h0
      have hrec := ih (i + 1) d
        { res := (applyKubernetesFile (world i)).res,
          errRes := (applyKubernetesFile (world i)).errMessage,
          err := (applyKubernetesFile (world i)).err, calls := st.calls + 1 }
        (fun j hj => by
          have := htr (j + 1) (Nat.succ_lt_succ hj)
          rwa [show i + (j + 1) = i + 1 + j by omega] at this)
        (by rwa [show i + (d + 1) = i + 1 + d by omega] at hfin)
      simp only [phase2From, h0, Bool.not_true, Bool.false_eq_true, if_false]
      rw [hrec]
      simp only []
      omega

/-- A response whose error stream carries the retry text comes from a command that
ran, so its `err` is nil. -/
theorem transient_err_nil (k : KubectlRun)
    (h : Contains (applyKubernetesFile k).errMessage "no matches for kind" = true) :
    (applyKubernetesFile k).err = none := by
  unfold applyKubernetesFile at h ⊢
  cases h1 : k.setFilename with
  | some e =>
    rw [h1] at h
    have hempty : Contains "" "no matches for kind" = false := by decide
    simp only [hempty] at h
    exact absurd h (by decide)
  | none =>
    cases h2 : k.setValidate with
    | some e =>
      rw [h1, h2] at h
      have hempty : Contains "" "no matches for kind" = false := by decide
      simp only [hempty] at h
      exact absurd h (by decide)
    | none => rfl

/-- When the loop runs out of iterations on responses that all carry the retry
text, it has made `remaining` more calls and `err` is nil. -/
theorem phase2From_exhausted (world : Nat → KubectlRun) :
    ∀ (remaining i : Nat) (st : Phase2State), 0 < remaining →
      (∀ j, j < remaining → Contains (applyKubernetesFile (world (i + j))).errMessage
        "no matches for kind" = true) →
      phase2From world i st remaining =
        { res := (applyKubernetesFile (world (i + remaining - 1))).res,
          errRes := (applyKubernetesFile (world (i + remaining - 1))).errMessage,
          err := none, calls := st.calls + remaining } := by
  intro remaining
  induction remaining with
  | zero => intro i st h; exact absurd h (Nat.lt_irrefl 0)
  | succ r ih =>
    intro i st _ htr
    have h0 := htr 0 (Nat.succ_pos r)
    simp only [Nat.add_zero] at h0
    simp only [phase2From, h0, Bool.not_true, Bool.false_eq_true, if_false]
    cases r with
    | zero =>
      simp [phase2From, transient_err_nil _ h0]
    | succ r =>
      rw [ih (i + 1) _ (Nat.succ_pos r) (fun j hj => by
        have := htr (j + 1) (Nat.succ_lt_succ hj)
        rwa [show i + (j + 1) = i + 1 + j by omega] at this)]
      have e1 : i + 1 + (r + 1) - 1 = i + (r + 1 + 1) - 1 := by omega
      simp only [e1, Phase2State.mk.injEq, true_and]
      omega

/-- C5: when the response number `k` (counted from 1) is the first whose error
stream does not contain `no matches for kind`, the phase-2 loop calls the apply
operation exactly `min 5 k` times. -/
theorem phase2_call_count (world : Nat → KubectlRun) (k : Nat) (hk : 1 ≤ k)
    (htransient : ∀ j, j + 1 < k →
      Contains (applyKubernetesFile (world j)).errMessage "no matches for kind" = true)
    (hfinal :
      Contains (applyKubernetesFile (world (k - 1))).errMessage "no matches for kind" = false) :
    (phase2Loop world).calls = min 5 k := by
  have h := phase2From_calls world 5 0 (k - 1)
    { res := "", errRes := "", err := none, calls := 0 }
    (fun j hj => by
      have := htransient j (by omega)
      simpa using this)
    (by simpa using hfinal)
  unfold phase2Loop
  rw [h]
  have : k - 1 + 1 = k := by omega
  simp [this]

/-- C5, instances: three transient responses followed by a success give exactly 4
calls, and a first response with another error gives exactly 1 call. -/
theorem phase2_call_count_witness :
    ((∀ j, j + 1 < 4 →
      Contains (applyKubernetesFile (threeTransientThenSuccess j)).errMessage
        "no matches for kind" = true) ∧
    Contains (applyKubernetesFile (threeTransientThenSuccess (4 - 1))).errMessage
      "no matches for kind" = false ∧
    (phase2Loop threeTransientThenSuccess).calls = 4) ∧
    (Contains (applyKubernetesFile ((fun _ => forbiddenRun) (1 - 1))).errMessage
      "no matches for kind" = false ∧
    (phase2Loop (fun _ => forbiddenRun)).calls = 1) :=
  have h1 : ∀ j, j + 1 < 4 →
      Contains (applyKubernetesFile (threeTransientThenSuccess j)).errMessage
        "no matches for kind" = true := by
    intro j hj
    have : j = 0 ∨ j = 1 ∨ j = 2 := by omega
    rcases this with rfl | rfl | rfl <;> decide
  have h2 : Contains (applyKubernetesFile forbiddenRun).errMessage
      "no matches for kind" = false := by decide
  ⟨⟨h1, by decide,
    phase2_call_count threeTransientThenSuccess 4 (by decide) h1 (by decide)⟩,
   ⟨h2, phase2_call_count (fun _ => forbiddenRun) 1 (by decide)
     (fun j hj => absurd hj (by omega)) h2⟩⟩

/-- C6: whenever all five phase-2 attempts return an error stream containing
`no matches for kind`, the loop makes five calls, the error stream of the fifth
attempt is logged, and the command prints `Deployment is complete.`, not
`Deployment failed`. -/
theorem retry_exhaustion_reports_complete (world : Nat → KubectlRun)
    (hall : ∀ j, j < 5 →
      Contains (applyKubernetesFile (world j)).errMessage "no matches for kind" = true) :
    (phase2Loop world).calls = 5 ∧
    (reportPhase2 (phase2Loop world)).printed = "\nDeployment is complete.\n" ∧
    (applyKubernetesFile (world 4)).errMessage ∈ (reportPhase2 (phase2Loop world)).logged := by
  have h := phase2From_exhausted world 5 0
    { res := "", errRes := "", err := none, calls := 0 } (by decide)
    (fun j hj => by simpa using hall j hj)
  unfold phase2Loop
  rw [h]
  have h4 := hall 4 (by decide)
  have hne : (applyKubernetesFile (world 4)).errMessage ≠ "" := by
    intro h0
    rw [h0] at h4
    exact absurd h4 (by decide)
  simp [reportPhase2, hne]

/-- C6, instance: five responses with the retry text end in `Deployment is
complete.`. -/
theorem retry_exhaustion_reports_complete_witness :
    (∀ j, j < 5 →
      Contains (applyKubernetesFile ((fun _ => transientRun) j)).errMessage
        "no matches for kind" = true) ∧
    (phase2Loop (fun _ => transientRun)).calls = 5 ∧
    (reportPhase2 (phase2Loop (fun _ => transientRun))).printed =
      "\nDeployment is complete.\n" ∧
    (applyKubernetesFile ((fun _ => transientRun) 4)).errMessage ∈
      (reportPhase2 (phase2Loop (fun _ => transientRun))).logged :=
  have h : Contains (applyKubernetesFile transientRun).errMessage "no matches for kind" = true := by
    decide
  ⟨fun _ _ => h, retry_exhaustion_reports_complete (fun _ => transientRun) (fun _ _ => h)⟩

/-- The gate skips over responses that are healthy and not yet `Running`. -/
theorem readinessGate_skip (pods : Nat → CmdResult) :
    ∀ (d fuel n : Nat),
      (∀ j, j < d → (pods (n + j)).err = none ∧ (pods (n + j)).errMessage = "" ∧
        (pods (n + j)).res ≠ "" ∧ statusRunning (pods (n + j)).res = false) →
      readinessGate pods (fuel + d) n = readinessGate pods fuel (n + d) := by
  intro d
  induction d with
  | zero => intro fuel n _; rfl
  | succ d ih =>
    intro fuel n h
    obtain ⟨h1, h2, h3, h4⟩ := h 0 (Nat.succ_pos d)
    simp only [Nat.add_zero] at h1 h2 h3 h4
    rw [show fuel + (d + 1) = (fuel + d) + 1 by omega]
    simp only [readinessGate, h1, h2, h3, h4, ne_eq, not_true_eq_false, if_false,
      Bool.false_eq_true]
    rw [ih fuel (n + 1) (fun j hj => by
      have := h (j + 1) (Nat.succ_lt_succ hj)
      rwa [show n + (j + 1) = n + 1 + j by omega] at this)]
    rw [show n + 1 + d = n + (d + 1) by omega]

/-- The gate makes no lookup past a response that carries an error: started at
lookup `n` with such a response `d` lookups ahead, it ends after at most
`n + d + 1` lookups, and it lets the command proceed only on a response before
that one whose status line said `Running`. -/
theorem readinessGate_stops (pods : Nat → CmdResult) :
    ∀ (d fuel n : Nat), d < fuel →
      ((pods (n + d)).err ≠ none ∨ (pods (n + d)).errMessage ≠ "") →
      (∃ lookups msg, readinessGate pods fuel n = some (.abort lookups msg) ∧
        lookups ≤ n + d + 1) ∨
      (∃ lookups, readinessGate pods fuel n = some (.proceed lookups) ∧
        lookups ≤ n + d ∧ statusRunning (pods (lookups - 1)).res = true ∧ n < lookups) := by
  intro d
  induction d with
  | zero =>
    intro fuel n hf herr
    obtain ⟨f, rfl⟩ : ∃ f, fuel = f + 1 := ⟨fuel - 1, by omega⟩
    left
    simp only [Nat.add_zero] at herr
    cases he : (pods n).err with
    | some e => exact ⟨n + 1, "\nFailed: " ++ e, by simp [readinessGate, he], by omega⟩
    | none =>
      have hm : (pods n).errMessage ≠ "" := by
        rcases herr with h | h
        · exact absurd he h
        · exact h
      exact ⟨n + 1, "\n: " ++ (pods n).errMessage, by simp [readinessGate, he, hm], by omega⟩
  | succ d ih =>
    intro fuel n hf herr
    obtain ⟨f, rfl⟩ : ∃ f, fuel = f + 1 := ⟨fuel - 1, by omega⟩
    cases he : (pods n).err with
    | some e => exact Or.inl ⟨n + 1, "\nFailed: " ++ e, by simp [readinessGate, he], by omega⟩
    | none =>
      by_cases hm : (pods n).errMessage = ""
      · by_cases hr : (pods n).res = ""
        · exact Or.inl ⟨n + 1, "\nNo response from first pod check.",
            by simp [readinessGate, he, hm, hr], by omega⟩
        · by_cases hs : statusRunning (pods n).res = true
          · exact Or.inr ⟨n + 1, by simp [readinessGate, he, hm, hr, hs], by omega,
              by simpa using hs, by omega⟩
          · have hrec := ih f (n + 1) (by omega)
              (by rwa [show n + 1 + d = n + (d + 1) by omega])
            have hstep : readinessGate pods (f + 1) n = readinessGate pods f (n + 1) := by
              simp [readinessGate, he, hm, hr, hs]
            rw [hstep]
            rcases hrec with ⟨l, msg, h1, h2⟩ | ⟨l, h1, h2, h3, h4⟩
            · exact Or.inl ⟨l, msg, h1, by omega⟩
            · exact Or.inr ⟨l, h1, by omega, h3, by omega⟩
      · exact Or.inl ⟨n + 1, "\n: " ++ (pods n).errMessage, by simp [readinessGate, he, hm], by omega⟩

/-- C7: let the responses before the response number `k + 1` be healthy (no lookup
error, empty error stream, non-empty output) and not yet `Running`.  If response
`k + 1` is healthy and its status line contains `Running`, the gate lets the
command proceed after exactly `k + 1` pod lookups.  If response `k + 1` carries a
lookup error or error-stream content, the gate aborts after exactly `k + 1`
lookups and the command ends without a single phase-2 apply call.  In any case
no lookup is made past a response that carries an error. -/
theorem readiness_gate_lookups (pods : Nat → CmdResult) (k : Nat)
    (hbefore : ∀ j, j < k → (pods j).err = none ∧ (pods j).errMessage = "" ∧
      (pods j).res ≠ "" ∧ statusRunning (pods j).res = false) :
    ((pods k).err = none → (pods k).errMessage = "" →
      statusRunning (pods k).res = true →
      ∀ fuel, k < fuel →
        readinessGate pods fuel 0 = some (.proceed (k + 1)) ∧
        ∀ world, ∃ run, runAfterPhase1 pods true world fuel = some run ∧
          run.podLookups = k + 1 ∧ run.phase2Calls = (phase2Loop world).calls) ∧
    (((pods k).err ≠ none ∨ (pods k).errMessage ≠ "") →
      ∀ fuel, k < fuel →
        ∃ msg, readinessGate pods fuel 0 = some (.abort (k + 1) msg) ∧
          ∀ prepared world, runAfterPhase1 pods prepared world fuel =
            some { podLookups := k + 1, phase2Calls := 0, printed := [msg] }) := by
  have hskip : ∀ fuel, k < fuel →
      readinessGate pods fuel 0 = readinessGate pods (fuel - k) k := by
    intro fuel hf
    have := readinessGate_skip pods k (fuel - k) 0 (fun j hj => by simpa using hbefore j hj)
    rw [show fuel - k + k = fuel by omega] at this
    simpa using this
  constructor
  · intro he hm hs fuel hf
    obtain ⟨f, hfe⟩ : ∃ f, fuel - k = f + 1 := ⟨fuel - k - 1, by omega⟩
    have hne : (pods k).res ≠ "" := by
      intro h0
      rw [h0] at hs
      exact absurd hs (by decide)
    have hg : readinessGate pods fuel 0 = some (.proceed (k + 1)) := by
      rw [hskip fuel hf, hfe]
      simp [readinessGate, he, hm, hne, hs]
    refine ⟨hg, fun world => ?_⟩
    simp [runAfterPhase1, hg]
  · intro herr fuel hf
    obtain ⟨f, hfe⟩ : ∃ f, fuel - k = f + 1 := ⟨fuel - k - 1, by omega⟩
    cases he : (pods k).err with
    | some e =>
      have hg : readinessGate pods fuel 0 = some (.abort (k + 1) ("\nFailed: " ++ e)) := by
        rw [hskip fuel hf, hfe]
        simp [readinessGate, he]
      exact ⟨_, hg, fun prepared world => by simp [runAfterPhase1, hg]⟩
    | none =>
      have hm : (pods k).errMessage ≠ "" := by
        rcases herr with h | h
        · exact absurd he h
        · exact h
      have hg : readinessGate pods fuel 0 =
          some (.abort (k + 1) ("\n: " ++ (pods k).errMessage)) := by
        rw [hskip fuel hf, hfe]
        simp [readinessGate, he, hm]
      exact ⟨_, hg, fun prepared world => by simp [runAfterPhase1, hg]⟩

/-- C7, instance: a pod lookup that reports `Running` on the third poll is
answered by exactly 3 lookups. -/
theorem readiness_gate_lookups_witness :
    (∀ j, j < 2 → (runningOnThirdPoll j).err = none ∧ (runningOnThirdPoll j).errMessage = "" ∧
      (runningOnThirdPoll j).res ≠ "" ∧ statusRunning (runningOnThirdPoll j).res = false) ∧
    readinessGate runningOnThirdPoll 3 0 = some (.proceed 3) :=
  have h : ∀ j, j < 2 → (runningOnThirdPoll j).err = none ∧
      (runningOnThirdPoll j).errMessage = "" ∧
      (runningOnThirdPoll j).res ≠ "" ∧ statusRunning (runningOnThirdPoll j).res = false := by
    intro j hj
    have : j = 0 ∨ j = 1 := by omega
    rcases this with rfl | rfl <;> decide
  ⟨h, ((readiness_gate_lookups runningOnThirdPoll 2 h).1 (by decide) (by decide) (by decide)
    3 (by decide)).1⟩

/-! ## Theorems: flag validation and provider wiring of `init` -/

/-- A `range` loop with an early error return finds nothing exactly when every
element is valid. -/
theorem firstInvalid_eq_none (valid : String → Bool) (l : List String) :
    firstInvalid valid l = none ↔ ∀ p ∈ l, valid p = true := by
  induction l with
  | nil => simp [firstInvalid]
  | cons a rest ih =>
    by_cases h : valid a = true
    · simp [firstInvalid, h, ih]
    · simp [firstInvalid, h]

/-- The providers `validateProvider` accepts. -/
theorem validateProvider_eq_none (prov : String) :
    validateProvider prov = none ↔
      prov ∈ ["minikube", "microk8s", "gke", "eks", "aks"] := by
  unfold validateProvider providerProperties GoMap.set GoMap.empty
  by_cases h1 : prov = "aks"
  · simp [h1]
  by_cases h2 : prov = "eks"
  · simp [h2]
  by_cases h3 : prov = "gke"
  · simp [h3]
  by_cases h4 : prov = "microk8s"
  · simp [h4]
  by_cases h5 : prov = "minikube"
  · simp [h5]
  simp [h1, h2, h3, h4, h5]

/-- The DNS providers `validateDNS` accepts. -/
theorem validateDNS_eq_none (dns : String) :
    validateDNS dns = none ↔
      dns ∈ ["route53", "clouddns", "azuredns", "cloudflare", ""] := by
  unfold validateDNS
  by_cases h1 : dns = "route53"
  · simp [h1]
  by_cases h2 : dns = ""
  · simp [h2]
  by_cases h3 : dns = "clouddns"
  · simp [h3]
  by_cases h4 : dns = "azuredns"
  · simp [h4]
  by_cases h5 : dns = "cloudflare"
  · simp [h5]
  simp [h1, h2, h3, h4, h5]

/-- The GPU plugin lists `validateGPUPlugins` accepts. -/
theorem validateGPUPlugins_eq_none (flags : InitFlags) :
    validateGPUPlugins flags flags.GPUDevicePlugins = none ↔
      ∀ p ∈ flags.GPUDevicePlugins.getD [], p = "amd" ∨ p = "nvidia" := by
  unfold validateGPUPlugins
  cases h : flags.GPUDevicePlugins with
  | none => simp
  | some l =>
    simp only [Option.map_eq_none', firstInvalid_eq_none, Option.getD_some]
    constructor
    · intro hv p hp
      have := hv p hp
      by_cases ha : p = "amd"
      · exact Or.inl ha
      · by_cases hn : p = "nvidia"
        · exact Or.inr hn
        · simp [ha, hn] at this
    · intro hv p hp
      rcases hv p hp with ha | hn
      · simp [ha]
      · simp [hn]

/-- The service lists `validateServices` accepts. -/
theorem validateServices_eq_none (services : Option (List String)) :
    validateServices services = none ↔ ∀ c ∈ services.getD [], c = "modeldb" := by
  unfold validateServices
  cases services with
  | none => simp
  | some l =>
    simp only [Option.map_eq_none', firstInvalid_eq_none, Option.getD_some]
    constructor
    · intro hv c hc
      simpa using hv c hc
    · intro hv c hc
      simp [hv c hc]

/-- C8: `validateInput` returns nil exactly when enable-cert-manager implies
enable-https and a non-empty DNS, a non-empty DNS implies enable-cert-manager, the
provider is one of minikube, microk8s, gke, eks, aks, the DNS is one of route53,
clouddns, azuredns, cloudflare or empty, every GPU plugin is amd or nvidia and
every service is modeldb; in every other case it returns an error. -/
theorem validateInput_accepts_iff (flags : InitFlags) :
    (validateInput flags = none ↔
      ((flags.EnableCertManager = true → flags.EnableHTTPS = true ∧ flags.DNS ≠ "") ∧
       (flags.DNS ≠ "" → flags.EnableCertManager = true) ∧
       flags.Provider ∈ ["minikube", "microk8s", "gke", "eks", "aks"] ∧
       flags.DNS ∈ ["route53", "clouddns", "azuredns", "cloudflare", ""] ∧
       (∀ p ∈ flags.GPUDevicePlugins.getD [], p = "amd" ∨ p = "nvidia") ∧
       (∀ c ∈ flags.Services.getD [], c = "modeldb"))) ∧
    (validateInput flags ≠ none ↔ ∃ err, validateInput flags = some err) := by
  refine ⟨?_, by cases validateInput flags <;> simp⟩
  rw [← validateProvider_eq_none, ← validateDNS_eq_none, ← validateGPUPlugins_eq_none,
    ← validateServices_eq_none]
  unfold validateInput
  by_cases hc : flags.EnableCertManager = true
  · by_cases hh : flags.EnableHTTPS = true
    · by_cases hd : flags.DNS = ""
      · simp [hc, hh, hd]
      · simp only [hc, hh, hd, not_true_eq_false, and_false, if_false, ne_eq,
          not_false_eq_true, and_true, true_and, forall_const]
        cases validateProvider flags.Provider <;> cases validateDNS flags.DNS <;>
          cases validateGPUPlugins flags flags.GPUDevicePlugins <;> simp
    · simp [hc, hh]
  · by_cases hd : flags.DNS = ""
    · simp only [hc, hd, false_and, if_false, ne_eq, not_true_eq_false, and_false,
        Bool.false_eq_true, false_implies, true_and]
      cases validateProvider flags.Provider <;> cases validateDNS "" <;>
        cases validateGPUPlugins flags flags.GPUDevicePlugins <;> simp
    · simp [hc, hd]

/-- C9: for the flags `--provider gke --artifact-repository-provider azure` the
validator `validateArtifactRepositoryProvider` rejects the value `azure`, but
`validateInput` never calls it and returns nil. -/
theorem validateInput_ignores_artifact_repository :
    validateInput unknownArtifactRepoFlags = none ∧
    validateArtifactRepositoryProvider unknownArtifactRepoFlags.ArtifactRepositoryProvider =
      some "unrecognized artifact repository provider value" := by
  decide

/-- C10: on a builder whose index knows the components `cert-manager`, `metallb`
and `storage`, `addCloudProviderToManifestBuilder` returns no error, adds the
provider token and nothing else to the contenders, and adds to the recorded
components, in this order and nothing else: `cert-manager` exactly when the
provider is neither minikube nor microk8s and cert-manager is enabled, `metallb`
exactly when the provider is minikube or microk8s and MetalLB is enabled, and
`storage` always. -/
theorem addCloudProvider_wiring (flags : InitFlags) (provider : String) (builder : Builder)
    (hcert : builder.manifest.GetComponent "cert-manager" ≠ none)
    (hmetal : builder.manifest.GetComponent "metallb" ≠ none)
    (hstorage : builder.manifest.GetComponent "storage" ≠ none) :
    addCloudProviderToManifestBuilder flags provider builder =
      ({ manifest := builder.manifest,
         contenders := builder.contenders ++ [provider],
         components := builder.components ++
           ((if (provider ≠ "minikube" ∧ provider ≠ "microk8s") ∧
               flags.EnableCertManager = true then ["cert-manager"] else []) ++
            (if (provider = "minikube" ∨ provider = "microk8s") ∧
               flags.EnableMetalLb = true then ["metallb"] else []) ++
            ["storage"]) }, none) := by
  obtain ⟨c1, hc1⟩ : ∃ c, builder.manifest.GetComponent "cert-manager" = some c :=
    Option.ne_none_iff_exists'.mp hcert
  obtain ⟨c2, hc2⟩ : ∃ c, builder.manifest.GetComponent "metallb" = some c :=
    Option.ne_none_iff_exists'.mp hmetal
  obtain ⟨c3, hc3⟩ : ∃ c, builder.manifest.GetComponent "storage" = some c :=
    Option.ne_none_iff_exists'.mp hstorage
  by_cases h1 : (provider ≠ "minikube" ∧ provider ≠ "microk8s") ∧ flags.EnableCertManager = true
  · have h2 : ¬ ((provider = "minikube" ∨ provider = "microk8s") ∧
        flags.EnableMetalLb = true) := by
      rintro ⟨h | h, _⟩
      · exact h1.1.1 h
      · exact h1.1.2 h
    simp only [addCloudProviderToManifestBuilder, Builder.AddOverlayContender,
      Builder.AddComponent, hc1, hc3, if_pos h1, if_neg h2, List.append_assoc, List.nil_append,
      List.singleton_append]
  · by_cases h2 : (provider = "minikube" ∨ provider = "microk8s") ∧ flags.EnableMetalLb = true
    · simp only [addCloudProviderToManifestBuilder, Builder.AddOverlayContender,
        Builder.AddComponent, hc2, hc3, if_neg h1, if_pos h2, List.append_assoc,
        List.nil_append, List.singleton_append]
    · simp only [addCloudProviderToManifestBuilder, Builder.AddOverlayContender,
        Builder.AddComponent, hc3, if_neg h1, if_neg h2, List.append_assoc,
        List.nil_append]

/-- C10, instance: provider gke with cert-manager enabled adds the contender `gke`
and the components `cert-manager` and `storage`. -/
theorem addCloudProvider_wiring_witness :
    wiringBuilder.manifest.GetComponent "cert-manager" ≠ none ∧
    wiringBuilder.manifest.GetComponent "metallb" ≠ none ∧
    wiringBuilder.manifest.GetComponent "storage" ≠ none ∧
    (addCloudProviderToManifestBuilder gkeCertManagerFlags "gke" wiringBuilder).1.contenders =
      ["gke"] ∧
    (addCloudProviderToManifestBuilder gkeCertManagerFlags "gke" wiringBuilder).1.components =
      ["cert-manager", "storage"] ∧
    (addCloudProviderToManifestBuilder gkeCertManagerFlags "gke" wiringBuilder).2 = none := by
  have h := addCloudProvider_wiring gkeCertManagerFlags "gke" wiringBuilder
    (by decide) (by decide) (by decide)
  refine ⟨by decide, by decide, by decide, ?_, ?_, ?_⟩
  · rw [h]; decide
  · rw [h]; decide
  · rw [h]

/-! ## Theorems: artifact repository pruning -/

/-- After `remove` nothing is stored under the removed key. -/
theorem find_remove_same (key : String) (d : YamlEntries) :
    (d.remove key).find key = none := by
  induction d with
  | done => rfl
  | scalar k value rest ih =>
    by_cases h : k = key
    · simp [YamlEntries.remove, h, ih]
    · simp [YamlEntries.remove, YamlEntries.find, h, ih]
  | sequence k items rest ih =>
    by_cases h : k = key
    · simp [YamlEntries.remove, h, ih]
    · simp [YamlEntries.remove, YamlEntries.find, h, ih]
  | mapping k content rest _ ih =>
    by_cases h : k = key
    · simp [YamlEntries.remove, h, ih]
    · simp [YamlEntries.remove, YamlEntries.find, h, ih]

/-- `remove` leaves what is stored under the other keys. -/
theorem find_remove_ne (key other : String) (hne : other ≠ key) (d : YamlEntries) :
    (d.remove key).find other = d.find other := by
  induction d with
  | done => rfl
  | scalar k value rest ih =>
    by_cases h : k = key
    · have hk : k ≠ other := fun e => hne (e ▸ h)
      simp [YamlEntries.remove, YamlEntries.find, h, ih, hk, Ne.symm hne]
    · simp [YamlEntries.remove, YamlEntries.find, h, ih]
  | sequence k items rest ih =>
    by_cases h : k = key
    · simp [YamlEntries.remove, YamlEntries.find, h, ih, Ne.symm hne]
    · simp [YamlEntries.remove, YamlEntries.find, h, ih]
  | mapping k content rest _ ih =>
    by_cases h : k = key
    · simp [YamlEntries.remove, YamlEntries.find, h, ih, Ne.symm hne]
    · simp [YamlEntries.remove, YamlEntries.find, h, ih]

/-- Rewriting the content of the mapping stored under `key` succeeds when that
mapping is there, and stores the new content under `key`. -/
theorem inFirst_find (key : String) (f : YamlEntries → Option YamlEntries)
    (c c1 : YamlEntries) (hf : f c = some c1) (d : YamlEntries)
    (h : d.find key = some (.mapping c)) :
    ∃ d1, d.inFirst key f = some d1 ∧ d1.find key = some (.mapping c1) := by
  induction d with
  | done => simp [YamlEntries.find] at h
  | scalar k value rest ih =>
    by_cases hk : k = key
    · simp [YamlEntries.find, hk] at h
    · simp only [YamlEntries.find, hk, if_false] at h
      obtain ⟨d1, h1, h2⟩ := ih h
      exact ⟨.scalar k value d1, by simp [YamlEntries.inFirst, hk, h1], by simp [YamlEntries.find, hk, h2]⟩
  | sequence k items rest ih =>
    by_cases hk : k = key
    · simp [YamlEntries.find, hk] at h
    · simp only [YamlEntries.find, hk, if_false] at h
      obtain ⟨d1, h1, h2⟩ := ih h
      exact ⟨.sequence k items d1, by simp [YamlEntries.inFirst, hk, h1], by simp [YamlEntries.find, hk, h2]⟩
  | mapping k content rest _ ih =>
    by_cases hk : k = key
    · simp only [YamlEntries.find, hk, if_true, Option.some.injEq, YamlValue.mapping.injEq] at h
      subst h
      exact ⟨.mapping k c1 rest, by simp [YamlEntries.inFirst, hk, hf],
        by simp [YamlEntries.find, hk]⟩
    · simp only [YamlEntries.find, hk, if_false] at h
      obtain ⟨d1, h1, h2⟩ := ih h
      exact ⟨.mapping k content d1, by simp [YamlEntries.inFirst, hk, h1], by simp [YamlEntries.find, hk, h2]⟩

/-- A mapping has no child nodes exactly when it has no entries. -/
theorem nodes_length_eq_zero (d : YamlEntries) : d.nodes.length = 0 ↔ d = .done := by
  cases d <;> simp [YamlEntries.nodes]

/-- Nothing is stored under a key of a mapping without entries. -/
theorem find_done (key : String) : YamlEntries.done.find key = none := rfl

/-- The loop over the providers, on a document whose `artifactRepository` is a
mapping: the loop runs to its end and leaves a mapping under
`artifactRepository` in which no provider other than the chosen one is stored and
every other key is stored as before. -/
theorem pruneProviders_mapping (flags : InitFlags) :
    ∀ (l : List String),
      (∀ x ∈ l, Split ("artifactRepository." ++ x) '.' = ["artifactRepository", x]) →
      ∀ (d c : YamlEntries), d.find "artifactRepository" = some (.mapping c) →
        ∃ d1 c1, pruneProviders flags l d = (d1, false) ∧
          d1.find "artifactRepository" = some (.mapping c1) ∧
          (∀ x ∈ l, x ≠ flags.ArtifactRepositoryProvider → c1.find x = none) ∧
          (∀ y, (y ∉ l ∨ y = flags.ArtifactRepositoryProvider) → c1.find y = c.find y) := by
  intro l
  induction l with
  | nil =>
    intro _ d c h
    exact ⟨d, c, rfl, h, by simp, fun _ _ => rfl⟩
  | cons x rest ih =>
    intro hsplit d c h
    have hrest : ∀ y ∈ rest,
        Split ("artifactRepository." ++ y) '.' = ["artifactRepository", y] :=
      fun y hy => hsplit y (List.mem_cons_of_mem x hy)
    have hx := hsplit x (List.mem_cons_self x rest)
    by_cases hp : flags.ArtifactRepositoryProvider = x
    · obtain ⟨d1, c1, h1, h2, h3, h4⟩ := ih hrest d c h
      refine ⟨d1, c1, by simp [pruneProviders, hp, h1], h2, ?_, ?_⟩
      · intro y hy hne
        rcases List.mem_cons.mp hy with rfl | hy
        · exact absurd hp.symm hne
        · exact h3 y hy hne
      · intro y hy
        apply h4
        rcases hy with hy | hy
        · exact Or.inl (fun hm => hy (List.mem_cons_of_mem x hm))
        · exact Or.inr hy
    · have hget : d.Get ("artifactRepository." ++ x) =
          (c.find x).map (fun v => (YamlValue.scalar x, v)) := by
        simp [YamlEntries.Get, hx, YamlEntries.getPath, h]
      cases hfx : c.find x with
      | none =>
        obtain ⟨d1, c1, h1, h2, h3, h4⟩ := ih hrest d c h
        refine ⟨d1, c1, by simp [pruneProviders, hp, hget, hfx, h1], h2, ?_, ?_⟩
        · intro y hy hne
          rcases List.mem_cons.mp hy with rfl | hy
          · by_cases hyr : y ∈ rest
            · exact h3 y hyr hne
            · rw [h4 y (Or.inl hyr), hfx]
          · exact h3 y hy hne
        · intro y hy
          apply h4
          rcases hy with hy | hy
          · exact Or.inl (fun hm => hy (List.mem_cons_of_mem x hm))
          · exact Or.inr hy
      | some v =>
        obtain ⟨d0, hd0, hfind0⟩ := inFirst_find "artifactRepository"
          (YamlEntries.deletePath [x]) c (c.remove x) rfl d h
        have hpath : YamlEntries.deletePath ["artifactRepository", x] d = some d0 := hd0
        have hdel : d.Delete ("artifactRepository." ++ x) = (d0, none) := by
          simp only [YamlEntries.Delete, hx, hpath]
        obtain ⟨d1, c1, h1, h2, h3, h4⟩ := ih hrest d0 (c.remove x) hfind0
        refine ⟨d1, c1, by simp [pruneProviders, hp, hget, hfx, hdel, h1], h2, ?_, ?_⟩
        · intro y hy hne
          rcases List.mem_cons.mp hy with rfl | hy
          · by_cases hyr : y ∈ rest
            · exact h3 y hyr hne
            · rw [h4 y (Or.inl hyr), find_remove_same]
          · exact h3 y hy hne
        · intro y hy
          have hyx : y ≠ x := by
            rcases hy with hy | hy
            · exact fun e => hy (e ▸ List.mem_cons_self x rest)
            · exact fun e => hp (hy ▸ e ▸ rfl)
          rw [h4 y (by
            rcases hy with hy | hy
            · exact Or.inl (fun hm => hy (List.mem_cons_of_mem x hm))
            · exact Or.inr hy), find_remove_ne x y hyx]

/-- The loop over the providers, on a document whose `artifactRepository` is not a
mapping, changes nothing. -/
theorem pruneProviders_not_mapping (flags : InitFlags) :
    ∀ (l : List String),
      (∀ x ∈ l, Split ("artifactRepository." ++ x) '.' = ["artifactRepository", x]) →
      ∀ (d : YamlEntries), (∀ c, d.find "artifactRepository" ≠ some (.mapping c)) →
        pruneProviders flags l d = (d, false) := by
  intro l
  induction l with
  | nil => intro _ d _; rfl
  | cons x rest ih =>
    intro hsplit d h
    have hrest : ∀ y ∈ rest,
        Split ("artifactRepository." ++ y) '.' = ["artifactRepository", y] :=
      fun y hy => hsplit y (List.mem_cons_of_mem x hy)
    have hx := hsplit x (List.mem_cons_self x rest)
    have hget : d.Get ("artifactRepository." ++ x) = none := by
      have hpath : d.getPath ["artifactRepository", x] = none := by
        cases hf : d.find "artifactRepository" with
        | none => simp [YamlEntries.getPath, hf]
        | some v =>
          cases v with
          | scalar _ => simp [YamlEntries.getPath, hf]
          | sequence _ => simp [YamlEntries.getPath, hf]
          | mapping c => exact absurd hf (h c)
      simp only [YamlEntries.Get, hx, hpath, Option.map_none']
    by_cases hp : flags.ArtifactRepositoryProvider = x
    · simp [pruneProviders, hp, ih hrest d h]
    · simp [pruneProviders, hp, hget, ih hrest d h]

/-- `GetValue` of a two-segment key reads the mapping stored under the first
segment. -/
theorem GetValue_two (d : YamlEntries) (key a x : String) (hsplit : Split key '.' = [a, x]) :
    d.GetValue key =
      match d.find a with
      | some (.mapping c) => c.find x
      | _ => none := by
  unfold YamlEntries.GetValue YamlEntries.Get
  rw [hsplit]
  cases h : d.find a with
  | none => simp [YamlEntries.getPath, h]
  | some v => cases v <;> simp [YamlEntries.getPath, h]

/-- `GetValue("artifactRepository")` reads the top-level mapping. -/
theorem GetValue_artifactRepository (d : YamlEntries) :
    d.GetValue "artifactRepository" = d.find "artifactRepository" := by
  have hs : Split "artifactRepository" '.' = ["artifactRepository"] := by decide
  unfold YamlEntries.GetValue YamlEntries.Get
  rw [hs]
  cases h : d.find "artifactRepository" <;> simp [YamlEntries.getPath, h]

/-- `Delete("artifactRepository")` removes the top-level entries of that name. -/
theorem Delete_artifactRepository (d : YamlEntries) :
    (d.Delete "artifactRepository").1 = d.remove "artifactRepository" := by
  have hs : Split "artifactRepository" '.' = ["artifactRepository"] := by decide
  unfold YamlEntries.Delete
  rw [hs]
  rfl

/-- The keys the loop of `removeUneededArtifactRepositoryProviders` looks up. -/
theorem provider_keys_split :
    ∀ x ∈ [artifactRepositoryProviderS3, artifactRepositoryProviderGcs],
      Split ("artifactRepository." ++ x) '.' = ["artifactRepository", x] := by
  decide

/-- On a document that has the key `artifactRepository`,
`removeUneededArtifactRepositoryProviders` completes; afterwards the subtree of
every provider other than the chosen one is gone, the subtree of the chosen
provider is as before, and `artifactRepository` is either absent or has
entries. -/
theorem removeUneeded_present (flags : InitFlags) (d : YamlEntries) (v : YamlValue)
    (hv : d.GetValue "artifactRepository" = some v) :
    ∃ d1, removeUneededArtifactRepositoryProviders flags d = some d1 ∧
      (flags.ArtifactRepositoryProvider ≠ "gcs" →
        d1.GetValue "artifactRepository.gcs" = none) ∧
      (flags.ArtifactRepositoryProvider ≠ "s3" →
        d1.GetValue "artifactRepository.s3" = none) ∧
      (flags.ArtifactRepositoryProvider = "gcs" →
        d1.GetValue "artifactRepository.gcs" = d.GetValue "artifactRepository.gcs") ∧
      (flags.ArtifactRepositoryProvider = "s3" →
        d1.GetValue "artifactRepository.s3" = d.GetValue "artifactRepository.s3") ∧
      (∀ v1, d1.GetValue "artifactRepository" = some v1 → v1.Content ≠ []) := by
  have hs3 : Split "artifactRepository.s3" '.' = ["artifactRepository", "s3"] := by decide
  have hgcs : Split "artifactRepository.gcs" '.' = ["artifactRepository", "gcs"] := by decide
  rw [GetValue_artifactRepository] at hv
  -- what the claim needs of a resulting document `d1` whose `artifactRepository`
  -- is absent
  have habsent : ∀ d1 : YamlEntries, d1.find "artifactRepository" = none →
      d1.GetValue "artifactRepository.gcs" = none ∧
      d1.GetValue "artifactRepository.s3" = none ∧
      (∀ v1, d1.GetValue "artifactRepository" = some v1 → v1.Content ≠ []) := by
    intro d1 h
    refine ⟨?_, ?_, ?_⟩
    · rw [GetValue_two d1 _ _ _ hgcs, h]
    · rw [GetValue_two d1 _ _ _ hs3, h]
    · intro v1 h1
      rw [GetValue_artifactRepository, h] at h1
      exact absurd h1 (by simp)
  unfold removeUneededArtifactRepositoryProviders
  simp only []
  by_cases hmap : ∃ c, d.find "artifactRepository" = some (.mapping c)
  · obtain ⟨c, hc⟩ := hmap
    obtain ⟨d1, c1, h1, h2, h3, h4⟩ := pruneProviders_mapping flags _ provider_keys_split d c hc
    have hg0 : d.GetValue "artifactRepository.gcs" = c.find "gcs" := by
      rw [GetValue_two d _ _ _ hgcs, hc]
    have hs0 : d.GetValue "artifactRepository.s3" = c.find "s3" := by
      rw [GetValue_two d _ _ _ hs3, hc]
    rw [h1]
    simp only [GetValue_artifactRepository, h2, YamlValue.Content]
    by_cases hempty : c1.nodes.length = 0
    · have hdone : c1 = .done := (nodes_length_eq_zero c1).mp hempty
      rw [if_pos hempty, Delete_artifactRepository]
      obtain ⟨a1, a2, a3⟩ := habsent (d1.remove "artifactRepository")
        (find_remove_same "artifactRepository" d1)
      refine ⟨_, rfl, fun _ => a1, fun _ => a2, ?_, ?_, ?_⟩
      · intro hp
        rw [a1, hg0, ← h4 "gcs" (Or.inr hp.symm), hdone]
        rfl
      · intro hp
        rw [a2, hs0, ← h4 "s3" (Or.inr hp.symm), hdone]
        rfl
      · intro v1 hv1
        rw [GetValue_artifactRepository] at a3
        exact a3 v1 hv1
    · rw [if_neg hempty]
      have hg1 : d1.GetValue "artifactRepository.gcs" = c1.find "gcs" := by
        rw [GetValue_two d1 _ _ _ hgcs, h2]
      have hs1 : d1.GetValue "artifactRepository.s3" = c1.find "s3" := by
        rw [GetValue_two d1 _ _ _ hs3, h2]
      refine ⟨_, rfl, ?_, ?_, ?_, ?_, ?_⟩
      · intro hp
        rw [hg1]
        exact h3 "gcs" (by decide) (Ne.symm hp)
      · intro hp
        rw [hs1]
        exact h3 "s3" (by decide) (Ne.symm hp)
      · intro hp
        rw [hg1, hg0]
        exact h4 "gcs" (Or.inr hp.symm)
      · intro hp
        rw [hs1, hs0]
        exact h4 "s3" (Or.inr hp.symm)
      · intro v1 hv1
        rw [h2] at hv1
        rw [← Option.some.inj hv1]
        intro hnil
        apply hempty
        simp only [YamlValue.Content] at hnil
        rw [hnil]
        rfl
  · have hnm : ∀ c, d.find "artifactRepository" ≠ some (.mapping c) :=
      fun c hc => hmap ⟨c, hc⟩
    rw [pruneProviders_not_mapping flags _ provider_keys_split d hnm]
    simp only [GetValue_artifactRepository, hv]
    have hg0 : d.GetValue "artifactRepository.gcs" = none := by
      rw [GetValue_two d _ _ _ hgcs, hv]
      cases v with
      | scalar _ => rfl
      | sequence _ => rfl
      | mapping c => exact absurd hv (hnm c)
    have hs0 : d.GetValue "artifactRepository.s3" = none := by
      rw [GetValue_two d _ _ _ hs3, hv]
      cases v with
      | scalar _ => rfl
      | sequence _ => rfl
      | mapping c => exact absurd hv (hnm c)
    by_cases hempty : v.Content.length = 0
    · rw [if_pos hempty, Delete_artifactRepository]
      obtain ⟨a1, a2, a3⟩ := habsent (d.remove "artifactRepository")
        (find_remove_same "artifactRepository" d)
      refine ⟨_, rfl, fun _ => a1, fun _ => a2, fun _ => by rw [a1, hg0],
        fun _ => by rw [a2, hs0], ?_⟩
      intro v1 hv1
      rw [GetValue_artifactRepository] at a3
      exact a3 v1 hv1
    · rw [if_neg hempty]
      refine ⟨_, rfl, fun _ => hg0, fun _ => hs0, fun _ => rfl, fun _ => rfl, ?_⟩
      intro v1 hv1
      rw [hv] at hv1
      rw [← Option.some.inj hv1]
      intro hnil
      apply hempty
      rw [hnil]
      rfl

/-- C11: on every parameter document that has no `artifactRepository` key, and for
every value of the artifact repository provider flag,
`removeUneededArtifactRepositoryProviders` does not complete: the loop finds
nothing to delete, `GetValue("artifactRepository")` is nil, and reading its
`Content` panics. -/
theorem removeUneeded_panics_without_key (flags : InitFlags) (d : YamlEntries)
    (habsent : d.GetValue "artifactRepository" = none) :
    removeUneededArtifactRepositoryProviders flags d = none := by
  have hfind : d.find "artifactRepository" = none := by
    rw [← GetValue_artifactRepository]
    exact habsent
  unfold removeUneededArtifactRepositoryProviders
  simp only []
  rw [pruneProviders_not_mapping flags _ provider_keys_split d (by
    intro c hc
    rw [hfind] at hc
    exact absurd hc (by simp))]
  simp only [habsent]

/-- C11, instance: with provider `s3` and a document that holds only the key
`application`, the function panics. -/
theorem removeUneeded_panics_without_key_witness :
    paramsWithoutArtifactRepository.GetValue "artifactRepository" = none ∧
    removeUneededArtifactRepositoryProviders minikubeS3Flags
      paramsWithoutArtifactRepository = none :=
  ⟨by decide,
   removeUneeded_panics_without_key minikubeS3Flags paramsWithoutArtifactRepository
     (by decide)⟩

/-! ## Theorems: the builder calls of `init` -/

/-- When one of the builder calls makes `initCmd.Run` return, the command has
logged one line and done nothing else: `bld.Build()` is not called and no file is
opened, created or written. -/
theorem initCmdRun_returned (flags : InitFlags) (world : InitWorld) (loadedManifest : Manifest)
    (hret : (initBuilderCalls flags world.commonComponents loadedManifest).2 = none) :
    ∃ message, initCmdRun flags world loadedManifest = some [.log message] := by
  unfold initCmdRun
  revert hret
  unfold initBuilderCalls
  simp only []
  split
  · intro _; exact ⟨_, rfl⟩
  · split
    · intro _; exact ⟨_, rfl⟩
    · split
      · intro _; exact ⟨_, rfl⟩
      · split
        · intro _; exact ⟨_, rfl⟩
        · split
          · intro _; exact ⟨_, rfl⟩
          · split
            · intro h; exact absurd h (by simp)
            · split
              · intro h; exact absurd h (by simp)
              · intro h; exact absurd h (by simp)

/-- Whether `initCmd.Run` goes on to `bld.Build()` does not depend on the flag
`--services`: the result of `AddComponent(Services...)` is logged and not acted
on. -/
theorem initBuilderCalls_services_irrelevant (flags : InitFlags) (commonComponents : List String)
    (loadedManifest : Manifest) (services : Option (List String)) :
    (initBuilderCalls { flags with Services := services } commonComponents loadedManifest).2.isSome =
      (initBuilderCalls { flags with Services := none } commonComponents loadedManifest).2.isSome := by
  have hcloud : ∀ (s : Option (List String)) (p : String) (b : Builder),
      addCloudProviderToManifestBuilder { flags with Services := s } p b =
        addCloudProviderToManifestBuilder flags p b := fun _ _ _ => rfl
  unfold initBuilderCalls
  simp only [hcloud]
  cases services with
  | none => rfl
  | some l =>
    simp only []
    repeat' split
    all_goals first
      | rfl
      | simp_all

/-- C12: with the flags `--provider minikube --artifact-repository-provider s3
--services modeldb`, which pass `validateInput`, and an index without the
component `modeldb`, the builder call `AddComponent(Services...)` fails with an
unknown component; `initCmd.Run` logs the error and goes on: it calls
`bld.Build()` and writes the parameters file and the configuration file. -/
theorem init_continues_after_services_error :
    validateInput modeldbFlags = none ∧
    ((CreateBuilder manifestWithoutModeldb).AddComponent ["modeldb"]).2 =
      some "UnknownComponent modeldb" ∧
    initCmdRun modeldbFlags smoothInitWorld manifestWithoutModeldb =
      some [.log "[error] Adding Components: UnknownComponent modeldb", .build, .openParams,
        .writeParams, .createConfig, .writeConfig] := by
  decide

/-! ## Theorems: the files of `apply` and `delete` -/

/-- The first loop of `deleteCmd.Run` checks only paths of the list it ranges
over. -/
theorem checkFiles_subset (world : DeleteWorld) (l : List String) :
    ∀ p ∈ (checkFiles world l).1, p ∈ l := by
  induction l with
  | nil => intro p hp; simp [checkFiles] at hp
  | cons a rest ih =>
    intro p hp
    unfold checkFiles at hp
    split at hp
    · simp only [List.mem_singleton] at hp
      exact hp ▸ List.mem_cons_self a rest
    · simp only [List.mem_singleton] at hp
      exact hp ▸ List.mem_cons_self a rest
    · rcases List.mem_cons.mp hp with rfl | h
      · exact List.mem_cons_self _ rest
      · exact List.mem_cons_of_mem a (ih p h)

/-- The second loop of `deleteCmd.Run` deletes only paths of the list it ranges
over. -/
theorem deleteFiles_subset (world : DeleteWorld) (l : List String) :
    ∀ p ∈ (deleteFiles world l).1, p ∈ l := by
  induction l with
  | nil => intro p hp; simp [deleteFiles] at hp
  | cons a rest ih =>
    intro p hp
    unfold deleteFiles at hp
    split at hp
    · simp only [List.mem_singleton] at hp
      exact hp ▸ List.mem_cons_self a rest
    · rcases List.mem_cons.mp hp with rfl | h
      · exact List.mem_cons_self _ rest
      · exact List.mem_cons_of_mem a (ih p h)

/-- Whatever surrounds it, `deleteCmd.Run` checks and deletes only the two paths
`.onepanel/kubernetes.yaml` and `.onepanel/application.kubernetes.yaml`, and so
neither of the files `apply` writes. -/
theorem deleteCmdRun_paths (world : DeleteWorld) :
    ∀ p, (p ∈ (deleteCmdRun world).checked ∨ p ∈ (deleteCmdRun world).deleted) →
      (p = ".onepanel/kubernetes.yaml" ∨ p = ".onepanel/application.kubernetes.yaml") ∧
        p ∉ applyWrittenFiles := by
  have hfiles : ∀ p ∈ filesToDelete,
      (p = ".onepanel/kubernetes.yaml" ∨ p = ".onepanel/application.kubernetes.yaml") ∧
        p ∉ applyWrittenFiles := by decide
  have hconf : ∀ (printed : List String) (p : String),
      (p ∈ (deleteConfirmed world printed).checked ∨
        p ∈ (deleteConfirmed world printed).deleted) → p ∈ filesToDelete := by
    intro printed p hp
    unfold deleteConfirmed at hp
    split at hp
    · rename_i checked message hc
      rcases hp with h | h
      · have := checkFiles_subset world filesToDelete p
        rw [hc] at this
        exact this h
      · simp at h
    · rename_i checked hc
      rcases hp with h | h
      · have := checkFiles_subset world filesToDelete p
        rw [hc] at this
        exact this h
      · exact deleteFiles_subset world filesToDelete p h
  intro p hp
  apply hfiles
  unfold deleteCmdRun at hp
  split at hp
  · split at hp
    · simp at hp
    · split at hp
      · simp at hp
      · exact hconf _ p hp
  · exact hconf _ p hp

/-- C13: the paths in `filesToDelete` are `.onepanel/kubernetes.yaml` and
`.onepanel/application.kubernetes.yaml`; `apply` writes
`.application.kubernetes.yaml` and `.kubernetes.yaml`; no path of the first list
is in the second.  Run with `-y` in a directory where exactly the two files of
`apply` exist, `delete` checks `.onepanel/kubernetes.yaml`, reports it missing
and hands nothing to the delete operation. -/
theorem delete_misses_apply_files :
    filesToDelete = [".onepanel/kubernetes.yaml", ".onepanel/application.kubernetes.yaml"] ∧
    applyWrittenFiles = [".application.kubernetes.yaml", ".kubernetes.yaml"] ∧
    (∀ p ∈ filesToDelete, p ∉ applyWrittenFiles) ∧
    deleteCmdRun afterApplyWorld =
      { checked := [".onepanel/kubernetes.yaml"], deleted := [],
        printed := ["'.onepanel/kubernetes.yaml' file does not exist. Are you in the directory where you run 'opctl init'?\n"] } := by
  decide

/-! ## Theorems: totality of `LoadManifest` -/

/-- In `overlays/<n>`, with no occurrence inside `n`, the last occurrence of
`overlays` is at position 0. -/
theorem lastIndexChars_overlays_root (n : List Char)
    (h : lastIndexChars "overlays".toList n = none) :
    lastIndexChars "overlays".toList ("overlays/".toList ++ n) = some 0 := by
  have e1 : "overlays".toList = ['o', 'v', 'e', 'r', 'l', 'a', 'y', 's'] := rfl
  have e2 : "overlays/".toList = ['o', 'v', 'e', 'r', 'l', 'a', 'y', 's', '/'] := rfl
  rw [e1] at h ⊢
  rw [e2]
  simp [lastIndexChars, h, List.isPrefixOf]

/-- For an overlay path `overlays/<x>` whose leaf does not contain the text
`overlays`, the slice `relativePath[:startOfOverlaysIndex-1]` has the bound `-1`
and panics. -/
theorem overlayComponentPath_root (x : String) (hx : Contains x "overlays" = false) :
    overlayComponentPath (Join ["overlays", x] "/") = none := by
  have hjoin : (Join ["overlays", x] "/").toList = "overlays/".toList ++ x.toList := by
    simp [Join, String.toList]
  have hlast : LastIndex (Join ["overlays", x] "/") "overlays" = 0 := by
    unfold LastIndex
    rw [hjoin, lastIndexChars_overlays_root _
      (lastIndexChars_none_of_not_Contains x "overlays" hx)]
    rfl
  unfold overlayComponentPath sliceTo
  rw [hlast]
  simp

/-- The position of the last occurrence lies within the text. -/
theorem lastIndexChars_le (sub : List Char) :
    ∀ (s : List Char) (k : Nat), lastIndexChars sub s = some k → k ≤ s.length := by
  intro s
  induction s with
  | nil =>
    intro k h
    unfold lastIndexChars at h
    split at h
    · rw [← Option.some.inj h]; exact Nat.le_refl _
    · exact absurd h (by simp)
  | cons c rest ih =>
    intro k h
    unfold lastIndexChars at h
    cases hr : lastIndexChars sub rest with
    | some j =>
      rw [hr] at h
      simp only [Option.some.injEq] at h
      have := ih j hr
      simp only [List.length_cons]
      omega
    | none =>
      rw [hr] at h
      simp only [] at h
      split at h
      · rw [← Option.some.inj h]; exact Nat.zero_le _
      · exact absurd h (by simp)

/-- A text that starts with `sub` has a last occurrence of it. -/
theorem lastIndexChars_isSome_of_isPrefixOf (sub s : List Char)
    (h : sub.isPrefixOf s = true) : (lastIndexChars sub s).isSome = true := by
  cases s with
  | nil =>
    have hs : sub = [] := by
      cases sub with
      | nil => rfl
      | cons a t => simp [List.isPrefixOf] at h
    simp [lastIndexChars, hs]
  | cons c rest =>
    unfold lastIndexChars
    cases lastIndexChars sub rest with
    | some j => rfl
    | none => simp [h]

/-- The slice `relativePath[:startOfOverlaysIndex-1]` is in bounds when the last
occurrence of `overlays` is not at the start of the path. -/
theorem overlayComponentPath_isSome (s : String) (k : Nat)
    (hk : lastIndexChars "overlays".toList s.toList = some k) (hpos : 1 ≤ k) :
    (overlayComponentPath s).isSome = true := by
  have hle : k ≤ s.toList.length := lastIndexChars_le _ _ _ hk
  have hlast : LastIndex s "overlays" = (k : Int) := by
    unfold LastIndex
    rw [hk]
  unfold overlayComponentPath sliceTo
  rw [hlast]
  have hlen : s.length = s.toList.length := rfl
  have hcond : (0 : Int) ≤ (k : Int) - 1 ∧ (k : Int) - 1 ≤ (s.length : Int) := by
    rw [hlen]
    constructor <;> omega
  rw [if_pos hcond]
  rfl

/-- The slice is in bounds for every directory below an `overlays` directory
that is not directly under the root. -/
theorem overlayComponentPath_isSome_deep (d : List String)
    (hpar : parentName d = some "overlays") (hlen : 2 < d.length) :
    (overlayComponentPath (Join d "/")).isSome = true := by
  obtain ⟨pre, hpre, hd, _⟩ := overlay_dir_split d hpar hlen
  have hjoin : (Join d "/").toList =
      (Join pre "/").toList ++ ('/' :: ("overlays/".toList ++ (d.getLastD "").toList)) := by
    conv_lhs => rw [hd]
    rw [Join_append_two "/" "overlays" _ pre hpre]
    simp [String.toList]
  have hpfx : ("overlays".toList).isPrefixOf
      ("overlays/".toList ++ (d.getLastD "").toList) = true := by
    have e1 : "overlays".toList = ['o', 'v', 'e', 'r', 'l', 'a', 'y', 's'] := rfl
    have e2 : "overlays/".toList = ['o', 'v', 'e', 'r', 'l', 'a', 'y', 's', '/'] := rfl
    rw [e1, e2]
    simp [List.isPrefixOf]
  obtain ⟨j, hj⟩ := Option.isSome_iff_exists.mp
    (lastIndexChars_isSome_of_isPrefixOf _ _ hpfx)
  have hslash : lastIndexChars "overlays".toList
      ('/' :: ("overlays/".toList ++ (d.getLastD "").toList)) = some (j + 1) := by
    rw [lastIndexChars, hj]
  have hk := lastIndexChars_append _ _ _ hslash (Join pre "/").toList
  rw [← hjoin] at hk
  exact overlayComponentPath_isSome _ _ hk (by omega)

/-- The slice is in bounds for an overlay path `overlays/<x>` whose leaf contains
the text `overlays`. -/
theorem overlayComponentPath_isSome_root (x : String) (hx : Contains x "overlays" = true) :
    (overlayComponentPath (Join ["overlays", x] "/")).isSome = true := by
  have hjoin : (Join ["overlays", x] "/").toList = "overlays/".toList ++ x.toList := by
    simp [Join, String.toList]
  have hsome : lastIndexChars "overlays".toList x.toList ≠ none := by
    intro hnone
    have hidx := (indexChars_none_iff "overlays".toList x.toList).mpr hnone
    unfold Contains Index at hx
    rw [hidx] at hx
    simp at hx
  obtain ⟨j, hj⟩ := Option.ne_none_iff_exists'.mp hsome
  have hk := lastIndexChars_append _ _ _ hj "overlays/".toList
  rw [← hjoin] at hk
  have h9 : "overlays/".toList.length = 9 := rfl
  rw [h9] at hk
  exact overlayComponentPath_isSome _ _ hk (by omega)

/-- A directory below an `overlays` directory directly under the root. -/
theorem overlay_dir_at_root (d : List String) (hpar : parentName d = some "overlays")
    (hlen : ¬ 2 < d.length) : d = ["overlays", d.getLastD ""] := by
  match d, hpar, hlen with
  | [], hpar, _ => simp [parentName] at hpar
  | [a], hpar, _ => simp [parentName] at hpar
  | [a, b], hpar, _ =>
    simp only [parentName, List.dropLast, List.getLast?_singleton, Option.some.injEq] at hpar
    simp [hpar]
  | _ :: _ :: _ :: _, _, hlen => simp at hlen

/-- `LoadManifest` returns an index exactly for the trees in which every
sub-directory of a directory `overlays` directly under the root has a name that
contains the text `overlays`; on every other tree it panics. -/
theorem LoadManifest_returns_iff (manifestRoot : String) (root : DirEntries) :
    (LoadManifest manifestRoot root).isSome = true ↔
      ∀ x, ["overlays", x] ∈ dirsOf root → Contains x "overlays" = true := by
  rw [(LoadManifest_overlays manifestRoot root).1]
  constructor
  · intro h x hx
    cases hc : Contains x "overlays" with
    | true => rfl
    | false =>
      have := h ["overlays", x] hx rfl
      rw [overlayComponentPath_root x hc] at this
      exact absurd this (by simp)
  · intro h d hd hpar
    by_cases hlen : 2 < d.length
    · exact overlayComponentPath_isSome_deep d hpar hlen
    · have hroot := overlay_dir_at_root d hpar hlen
      rw [hroot]
      apply overlayComponentPath_isSome_root
      apply h
      rw [← hroot]
      exact hd

/-- C14: for every directory tree that has a directory `overlays` directly under
the root with a sub-directory whose name does not contain the text `overlays`,
`LoadManifest` panics: it returns no index. -/
theorem LoadManifest_panics_on_root_overlays (manifestRoot : String) (root : DirEntries)
    (x : String) (hdir : ["overlays", x] ∈ dirsOf root)
    (hx : Contains x "overlays" = false) :
    (LoadManifest manifestRoot root).isSome = false := by
  cases h : (LoadManifest manifestRoot root).isSome with
  | false => rfl
  | true =>
    have hall := (LoadManifest_overlays manifestRoot root).1.mp h ["overlays", x] hdir rfl
    rw [overlayComponentPath_root x hx] at hall
    exact absurd hall (by simp)

/-- C14, instance: the tree `common/base`, `overlays/dev`. -/
theorem LoadManifest_panics_on_root_overlays_witness :
    ["overlays", "dev"] ∈ dirsOf rootOverlaysBesideComponents ∧
    Contains "dev" "overlays" = false ∧
    (LoadManifest ".onepanel/manifests" rootOverlaysBesideComponents).isSome = false :=
  ⟨by decide, by decide,
   LoadManifest_panics_on_root_overlays ".onepanel/manifests" rootOverlaysBesideComponents
     "dev" (by decide) (by decide)⟩

end Onepanel
